import Mathlib

/-!
# Structural column solver: buckling-load core

A shallow embedding of the numeric core of `columnsolver.cpp` and the properties
of it that the specification states.

The source is read twice.

* The real-valued reading takes `double` as `ℝ` and `std::sqrt` as `Real.sqrt`.  It says
  which formula a handler applies to which values, and what those formulas give in exact
  arithmetic.  It carries the regime rule, the two straight-column scenarios and the
  independence of the loads from the eccentricity.  The definitions that reach `Real.sqrt`
  are not executable.
* The double-precision reading takes `double` as IEEE 754 binary64 (`F64`), with rounding,
  overflow, underflow, infinities and NaN.  It is executable, and it carries every property
  that the arithmetic of the machine decides: the roots the solver returns, the discriminant
  clamp, the regime boundary, division by zero, and the bounds on the allowable load.

In both readings `PI` is the literal of the source, `3.141592653589793`, not the number `π`;
`read_positive` hands a handler only values that pass `valid_positive`; and a handler is a
function of the values read, one per branch of the cross-section `option` (`1` circular,
`2` rectangular), in the order in which the source reads them.  What a branch prints, and the
locals it computes on the way, are the fields of its result record.
-/

namespace ColumnSolver

noncomputable section

/-! ## The real-valued reading: constants and helpers of the source -/

/-- The source's `constexpr double PI = 3.141592653589793;`. -/
def PI : ℝ := 3.141592653589793

/-- The source's `valid_positive`: `std::isfinite(x) && x > 0.0`.  Every real number is
finite, so only the sign test remains. -/
def valid_positive (x : ℝ) : Prop := 0 < x

/-- The source's `solve_quadratic_small_root`: the discriminant is clamped to `0` when
negative, and the square root is subtracted. -/
def solve_quadratic_small_root (c1 c2 : ℝ) : ℝ :=
  let disc := c1 * c1 - 4 * c2
  let disc := if disc < 0 then 0 else disc
  (-c1 - Real.sqrt disc) / 2

/-- The source's `euler_load_from_sr`. -/
def euler_load_from_sr (E A sr : ℝ) : ℝ :=
  (PI * PI * E * A) / (sr * sr)

/-- The source's `johnson_load`. -/
def johnson_load (A S sr E : ℝ) : ℝ :=
  (A * S) * (1 - (S * sr * sr) / (4 * PI * PI * E))

/-! ## Results of the handlers -/

/-- Which branch of `slenderness_ratio > column_constant` ran: `long` prints
"Critical Load (Euler)", `short` prints "Critical Load (Johnson)". -/
inductive Regime where
  | long
  | short
  deriving DecidableEq

/-- What `handle_straight` computes and prints. -/
structure StraightResult where
  radius_gyration : ℝ
  area : ℝ
  slenderness_ratio : ℝ
  column_constant : ℝ
  regime : Regime
  critical_load : ℝ

/-- What `handle_crooked` computes and prints. -/
structure CrookedResult where
  radius_gyration : ℝ
  area : ℝ
  slenderness_ratio : ℝ
  column_constant : ℝ
  regime : Regime
  critical_load : ℝ
  quad_c1 : ℝ
  quad_c2 : ℝ
  allowable_load : ℝ

/-- What `handle_eccentric` computes and prints (`quad_c1` and `quad_c2` are computed
but not printed; `max_stress` is the printed `allowable_load/area`). -/
structure EccentricResult where
  radius_gyration : ℝ
  area : ℝ
  slenderness_ratio : ℝ
  column_constant : ℝ
  eccentricity : ℝ
  regime : Regime
  critical_load : ℝ
  quad_c1 : ℝ
  quad_c2 : ℝ
  allowable_load : ℝ
  max_stress : ℝ

/-! ## The handlers -/

/-- The branch `option == 1` of `handle_straight`. -/
def handle_straight_circular
    (diameter end_fixity length yield_strength elastic_modulus : ℝ) : StraightResult :=
  let radius_gyration := diameter / 4
  let area := (PI * diameter * diameter) / 4
  let slenderness_ratio := (end_fixity * length) / radius_gyration
  let column_constant := Real.sqrt ((2 * PI * PI * elastic_modulus) / yield_strength)
  if slenderness_ratio > column_constant then
    let euler_P := euler_load_from_sr elastic_modulus area slenderness_ratio
    { radius_gyration := radius_gyration, area := area,
      slenderness_ratio := slenderness_ratio, column_constant := column_constant,
      regime := Regime.long, critical_load := euler_P }
  else
    let johnson_P := johnson_load area yield_strength slenderness_ratio elastic_modulus
    { radius_gyration := radius_gyration, area := area,
      slenderness_ratio := slenderness_ratio, column_constant := column_constant,
      regime := Regime.short, critical_load := johnson_P }

/-- The branch `option == 2` of `handle_straight`. -/
def handle_straight_rectangular
    (breadth height length end_fixity yield_strength elastic_modulus : ℝ) : StraightResult :=
  let radius_gyration := breadth / Real.sqrt 12
  let area := breadth * height
  let slenderness_ratio := (end_fixity * length) / radius_gyration
  let column_constant := Real.sqrt ((2 * PI * PI * elastic_modulus) / yield_strength)
  if slenderness_ratio > column_constant then
    let euler_P := euler_load_from_sr elastic_modulus area slenderness_ratio
    { radius_gyration := radius_gyration, area := area,
      slenderness_ratio := slenderness_ratio, column_constant := column_constant,
      regime := Regime.long, critical_load := euler_P }
  else
    let johnson_P := johnson_load area yield_strength slenderness_ratio elastic_modulus
    { radius_gyration := radius_gyration, area := area,
      slenderness_ratio := slenderness_ratio, column_constant := column_constant,
      regime := Regime.short, critical_load := johnson_P }

/-- The branch `option == 1` of `handle_crooked`. -/
def handle_crooked_circular
    (diameter end_fixity initial_crookedness design_factor length yield_strength
      elastic_modulus : ℝ) : CrookedResult :=
  let radius_gyration := diameter / 4
  let area := (PI * diameter * diameter) / 4
  let slenderness_ratio := (end_fixity * length) / radius_gyration
  let column_constant := Real.sqrt ((2 * PI * PI * elastic_modulus) / yield_strength)
  let half_section := diameter / 2
  if slenderness_ratio > column_constant then
    let euler_P := euler_load_from_sr elastic_modulus area slenderness_ratio
    let init_crooked_term := (initial_crookedness * half_section) / (radius_gyration * radius_gyration)
    let quad_c1 := (-1 / design_factor) * ((yield_strength * area) + (1 + init_crooked_term) * euler_P)
    let quad_c2 := (yield_strength * area * euler_P) / (design_factor * design_factor)
    let allowable_load := solve_quadratic_small_root quad_c1 quad_c2
    { radius_gyration := radius_gyration, area := area,
      slenderness_ratio := slenderness_ratio, column_constant := column_constant,
      regime := Regime.long, critical_load := euler_P,
      quad_c1 := quad_c1, quad_c2 := quad_c2, allowable_load := allowable_load }
  else
    let johnson_P := johnson_load area yield_strength slenderness_ratio elastic_modulus
    let init_crooked_term := (initial_crookedness * half_section) / (radius_gyration * radius_gyration)
    let quad_c1 := (-1 / design_factor) * ((yield_strength * area) + (1 + init_crooked_term) * johnson_P)
    let quad_c2 := (yield_strength * area * johnson_P) / (design_factor * design_factor)
    let allowable_load := solve_quadratic_small_root quad_c1 quad_c2
    { radius_gyration := radius_gyration, area := area,
      slenderness_ratio := slenderness_ratio, column_constant := column_constant,
      regime := Regime.short, critical_load := johnson_P,
      quad_c1 := quad_c1, quad_c2 := quad_c2, allowable_load := allowable_load }

/-- The branch `option == 2` of `handle_crooked`: the crookedness term is the literal
`0.0`. -/
def handle_crooked_rectangular
    (breadth height length design_factor end_fixity yield_strength elastic_modulus : ℝ) :
    CrookedResult :=
  let radius_gyration := breadth / Real.sqrt 12
  let area := breadth * height
  let slenderness_ratio := (end_fixity * length) / radius_gyration
  let column_constant := Real.sqrt ((2 * PI * PI * elastic_modulus) / yield_strength)
  if slenderness_ratio > column_constant then
    let euler_P := euler_load_from_sr elastic_modulus area slenderness_ratio
    let quad_c1 := (-1 / design_factor) * ((yield_strength * area) + (1 + 0) * euler_P)
    let quad_c2 := (yield_strength * area * euler_P) / (design_factor * design_factor)
    let allowable_load := solve_quadratic_small_root quad_c1 quad_c2
    { radius_gyration := radius_gyration, area := area,
      slenderness_ratio := slenderness_ratio, column_constant := column_constant,
      regime := Regime.long, critical_load := euler_P,
      quad_c1 := quad_c1, quad_c2 := quad_c2, allowable_load := allowable_load }
  else
    let johnson_P := johnson_load area yield_strength slenderness_ratio elastic_modulus
    let quad_c1 := (-1 / design_factor) * ((yield_strength * area) + (1 + 0) * johnson_P)
    let quad_c2 := (yield_strength * area * johnson_P) / (design_factor * design_factor)
    let allowable_load := solve_quadratic_small_root quad_c1 quad_c2
    { radius_gyration := radius_gyration, area := area,
      slenderness_ratio := slenderness_ratio, column_constant := column_constant,
      regime := Regime.short, critical_load := johnson_P,
      quad_c1 := quad_c1, quad_c2 := quad_c2, allowable_load := allowable_load }

/-- The branch `option == 1` of `handle_eccentric`: `eccentricity` is read and printed. -/
def handle_eccentric_circular
    (diameter end_fixity initial_crookedness design_factor length yield_strength
      elastic_modulus eccentricity : ℝ) : EccentricResult :=
  let radius_gyration := diameter / 4
  let area := (PI * diameter * diameter) / 4
  let slenderness_ratio := (end_fixity * length) / radius_gyration
  let column_constant := Real.sqrt ((2 * PI * PI * elastic_modulus) / yield_strength)
  let half_section := diameter / 2
  if slenderness_ratio > column_constant then
    let euler_P := euler_load_from_sr elastic_modulus area slenderness_ratio
    let init_crooked_term := (initial_crookedness * half_section) / (radius_gyration * radius_gyration)
    let quad_c1 := (-1 / design_factor) * ((yield_strength * area) + (1 + init_crooked_term) * euler_P)
    let quad_c2 := (yield_strength * area * euler_P) / (design_factor * design_factor)
    let allowable_load := solve_quadratic_small_root quad_c1 quad_c2
    { radius_gyration := radius_gyration, area := area,
      slenderness_ratio := slenderness_ratio, column_constant := column_constant,
      eccentricity := eccentricity,
      regime := Regime.long, critical_load := euler_P,
      quad_c1 := quad_c1, quad_c2 := quad_c2, allowable_load := allowable_load,
      max_stress := allowable_load / area }
  else
    let johnson_P := johnson_load area yield_strength slenderness_ratio elastic_modulus
    let init_crooked_term := (initial_crookedness * half_section) / (radius_gyration * radius_gyration)
    let quad_c1 := (-1 / design_factor) * ((yield_strength * area) + (1 + init_crooked_term) * johnson_P)
    let quad_c2 := (yield_strength * area * johnson_P) / (design_factor * design_factor)
    let allowable_load := solve_quadratic_small_root quad_c1 quad_c2
    { radius_gyration := radius_gyration, area := area,
      slenderness_ratio := slenderness_ratio, column_constant := column_constant,
      eccentricity := eccentricity,
      regime := Regime.short, critical_load := johnson_P,
      quad_c1 := quad_c1, quad_c2 := quad_c2, allowable_load := allowable_load,
      max_stress := allowable_load / area }

/-- The branch `option == 2` of `handle_eccentric`. -/
def handle_eccentric_rectangular
    (breadth height length design_factor end_fixity yield_strength elastic_modulus
      eccentricity : ℝ) : EccentricResult :=
  let radius_gyration := breadth / Real.sqrt 12
  let area := breadth * height
  let slenderness_ratio := (end_fixity * length) / radius_gyration
  let column_constant := Real.sqrt ((2 * PI * PI * elastic_modulus) / yield_strength)
  if slenderness_ratio > column_constant then
    let euler_P := euler_load_from_sr elastic_modulus area slenderness_ratio
    let quad_c1 := (-1 / design_factor) * ((yield_strength * area) + (1 + 0) * euler_P)
    let quad_c2 := (yield_strength * area * euler_P) / (design_factor * design_factor)
    let allowable_load := solve_quadratic_small_root quad_c1 quad_c2
    { radius_gyration := radius_gyration, area := area,
      slenderness_ratio := slenderness_ratio, column_constant := column_constant,
      eccentricity := eccentricity,
      regime := Regime.long, critical_load := euler_P,
      quad_c1 := quad_c1, quad_c2 := quad_c2, allowable_load := allowable_load,
      max_stress := allowable_load / area }
  else
    let johnson_P := johnson_load area yield_strength slenderness_ratio elastic_modulus
    let quad_c1 := (-1 / design_factor) * ((yield_strength * area) + (1 + 0) * johnson_P)
    let quad_c2 := (yield_strength * area * johnson_P) / (design_factor * design_factor)
    let allowable_load := solve_quadratic_small_root quad_c1 quad_c2
    { radius_gyration := radius_gyration, area := area,
      slenderness_ratio := slenderness_ratio, column_constant := column_constant,
      eccentricity := eccentricity,
      regime := Regime.short, critical_load := johnson_P,
      quad_c1 := quad_c1, quad_c2 := quad_c2, allowable_load := allowable_load,
      max_stress := allowable_load / area }

/-! ## The regime rule of the specification -/

/-- The decision rule as the specification words it, over the values a handler reports:
the slenderness ratio is `K·L/radiusOfGyration`, the column constant is
`sqrt(2·PI²·E/S)`, a slenderness ratio above the column constant is the long regime with
Euler's value, and anything else, the tie included, is the short regime with Johnson's. -/
def RegimeRule (K L S E radiusOfGyration area slendernessRatio columnConstant : ℝ)
    (regime : Regime) (criticalLoad : ℝ) : Prop :=
  slendernessRatio = K * L / radiusOfGyration ∧
  columnConstant = Real.sqrt (2 * PI ^ 2 * E / S) ∧
  (slendernessRatio > columnConstant →
    regime = Regime.long ∧ criticalLoad = PI ^ 2 * E * area / slendernessRatio ^ 2) ∧
  (slendernessRatio ≤ columnConstant →
    regime = Regime.short ∧
      criticalLoad = area * S * (1 - S * slendernessRatio ^ 2 / (4 * PI ^ 2 * E)))

/-- The regime rule on a result of `handle_straight`. -/
def StraightResult.followsRegimeRule (r : StraightResult) (K L S E : ℝ) : Prop :=
  RegimeRule K L S E r.radius_gyration r.area r.slenderness_ratio r.column_constant
    r.regime r.critical_load

/-- The regime rule on a result of `handle_crooked`. -/
def CrookedResult.followsRegimeRule (r : CrookedResult) (K L S E : ℝ) : Prop :=
  RegimeRule K L S E r.radius_gyration r.area r.slenderness_ratio r.column_constant
    r.regime r.critical_load

/-- The regime rule on a result of `handle_eccentric`. -/
def EccentricResult.followsRegimeRule (r : EccentricResult) (K L S E : ℝ) : Prop :=
  RegimeRule K L S E r.radius_gyration r.area r.slenderness_ratio r.column_constant
    r.regime r.critical_load

end

/-! ## IEEE 754 binary64

The program computes in `double`.  `F64` is a model of binary64 in which the properties that
rounding, overflow or underflow decide can be evaluated: every operation returns the exact
result rounded to nearest, ties to even, with gradual underflow and overflow to infinity.
Each operation of the source is taken to round on its own (no fused multiply-add and no
extended precision), `std::sqrt` to be correctly rounded, and a decimal input to be
converted to the nearest double. -/

/-- A binary64 value: NaN, an infinity, or `(-1)^neg · m · 2^e`.  A double is represented
with `m < 2^52` and `e = -1074` (zero and the subnormals) or with `2^52 ≤ m < 2^53` and
`-1074 ≤ e ≤ 971` (the normal numbers); the operations below return this representation. -/
inductive F64 where
  | nan : F64
  | inf (neg : Bool) : F64
  | fin (neg : Bool) (m : Nat) (e : Int) : F64
  deriving DecidableEq

namespace F64

/-- Steps of `log2`: the bits of the result are fixed from bit `i - 1` down. -/
def log2Aux (n : Nat) : Nat → Nat → Nat
  | 0, k => k
  | i + 1, k => log2Aux n i (if n >>> (k + 1 <<< i) = 0 then k else k + 1 <<< i)

/-- The position of the leading bit of `n`, for `0 < n < 2^(2^12)`. -/
def log2 (n : Nat) : Nat := log2Aux n 12 0

/-- The power `10^k`. -/
def pow10 : Nat → Nat
  | 0 => 1
  | k + 1 => 10 * pow10 k

/-- The exponent `k` with `2^k ≤ n/d < 2^(k+1)`, for positive `n` and `d`. -/
def exponent (n d : Nat) : Int :=
  let k0 : Int := (log2 n : Int) - (log2 d : Int)
  if (if 0 ≤ k0 then d <<< k0.toNat ≤ n else d ≤ n <<< (-k0).toNat) then k0 else k0 - 1

/-- The multiple of `2^e` nearest to `n/d`, ties to the even multiple; a significand that
reaches `2^53` moves to the next exponent, and an exponent above `971` is an overflow. -/
def roundAt (neg : Bool) (n d : Nat) (e : Int) : F64 :=
  let N : Nat := if e < 0 then n <<< (-e).toNat else n
  let D : Nat := if e < 0 then d else d <<< e.toNat
  let q : Nat := N / D
  let r : Nat := N % D
  let q1 : Nat := if D < 2 * r ∨ (2 * r = D ∧ q % 2 = 1) then q + 1 else q
  if q1 = 1 <<< 53 then
    (if 971 < e + 1 then inf neg else fin neg (1 <<< 52) (e + 1))
  else
    (if 971 < e then inf neg else fin neg q1 e)

/-- The double nearest to `(-1)^neg · n/d`: 53 significant bits, or the spacing `2^-1074`
of the subnormals when the value is below `2^-1022`. -/
def round (neg : Bool) (n d : Nat) : F64 :=
  if n = 0 then fin neg 0 (-1074)
  else roundAt neg n d (max (exponent n d - 52) (-1074))

/-- The double nearest to `(-1)^neg · m · 2^e`. -/
def roundScaled (neg : Bool) (m : Nat) (e : Int) : F64 :=
  if 0 ≤ e then round neg (m <<< e.toNat) 1 else round neg m (1 <<< (-e).toNat)

/-- The double a decimal input `(-1)^neg · digits · 10^exp10` is converted to. -/
def ofDecimal (neg : Bool) (digits : Nat) (exp10 : Int) : F64 :=
  if 0 ≤ exp10 then round neg (digits * pow10 exp10.toNat) 1
  else round neg digits (pow10 (-exp10).toNat)

/-- The double a positive decimal literal `digits · 10^exp10` denotes. -/
def lit (digits : Nat) (exp10 : Int) : F64 := ofDecimal false digits exp10

/-- Unary minus: the sign bit is flipped. -/
def neg : F64 → F64
  | nan => nan
  | inf s => inf (!s)
  | fin s m e => fin (!s) m e

/-- The integer `(-1)^s · m`. -/
def signed (s : Bool) (m : Nat) : Int := if s then -(m : Int) else (m : Int)

/-- Addition.  An exact sum of zero is `+0`, unless both operands are negative. -/
def add : F64 → F64 → F64
  | nan, _ => nan
  | _, nan => nan
  | inf s, inf t => if s = t then inf s else nan
  | inf s, fin _ _ _ => inf s
  | fin _ _ _, inf t => inf t
  | fin s m e, fin t n f =>
    let g : Int := min e f
    let c : Int := signed s (m <<< (e - g).toNat) + signed t (n <<< (f - g).toNat)
    if c = 0 then fin (s && t) 0 (-1074) else roundScaled (decide (c < 0)) c.natAbs g

/-- Subtraction, `a + (-b)`. -/
def sub (a b : F64) : F64 := add a (neg b)

/-- Multiplication. -/
def mul : F64 → F64 → F64
  | nan, _ => nan
  | _, nan => nan
  | inf s, inf t => inf (xor s t)
  | inf s, fin t n _ => if n = 0 then nan else inf (xor s t)
  | fin s m _, inf t => if m = 0 then nan else inf (xor s t)
  | fin s m e, fin t n f => roundScaled (xor s t) (m * n) (e + f)

/-- Division.  A non-zero value divided by zero is an infinity, `0/0` is NaN. -/
def div : F64 → F64 → F64
  | nan, _ => nan
  | _, nan => nan
  | inf _, inf _ => nan
  | inf s, fin t _ _ => inf (xor s t)
  | fin s _ _, inf t => fin (xor s t) 0 (-1074)
  | fin s m e, fin t n f =>
    if n = 0 then (if m = 0 then nan else inf (xor s t))
    else if 0 ≤ e - f then round (xor s t) (m <<< (e - f).toNat) n
    else round (xor s t) m (n <<< (f - e).toNat)

/-- Steps of `isqrt`: the bits of the root are fixed from bit `i - 1` down. -/
def isqrtAux (N : Nat) : Nat → Nat → Nat
  | 0, r => r
  | i + 1, r => isqrtAux N i (if (r + 1 <<< i) * (r + 1 <<< i) ≤ N then r + 1 <<< i else r)

/-- The integer square root of `N < 2^128`. -/
def isqrt (N : Nat) : Nat := isqrtAux N 64 0

/-- The correctly rounded `std::sqrt`: NaN on a negative argument.  The argument is scaled to
an integer `N` of 111 or 112 bits with an even exponent left over; a root that is not exact
lies strictly between `r` and `r + 1` and rounds as `r + 1/2` does. -/
def sqrt : F64 → F64
  | nan => nan
  | inf s => if s then nan else inf false
  | fin s m e =>
    if m = 0 then fin s 0 (-1074)
    else if s then nan
    else
      let k0 : Nat := 110 - log2 m
      let k : Nat := if (e - (k0 : Int)) % 2 = 0 then k0 else k0 + 1
      let t : Int := (e - (k : Int)) / 2
      let N : Nat := m <<< k
      let r : Nat := isqrt N
      if r * r = N then roundScaled false r t else roundScaled false (2 * r + 1) (t - 1)

/-- The comparison `a < b`, false when an operand is NaN. -/
def lt : F64 → F64 → Bool
  | nan, _ => false
  | _, nan => false
  | inf s, inf t => s && !t
  | inf s, fin _ _ _ => s
  | fin _ _ _, inf t => !t
  | fin s m e, fin t n f =>
    let g : Int := min e f
    decide (signed s (m <<< (e - g).toNat) < signed t (n <<< (f - g).toNat))

/-- The literal `0.0`. -/
def zero : F64 := fin false 0 (-1074)

/-- The literal `1.0`. -/
def one : F64 := ofDecimal false 1 0

/-- The literal `2.0`. -/
def two : F64 := ofDecimal false 2 0

/-- The literal `4.0`. -/
def four : F64 := ofDecimal false 4 0

/-- The literal `12.0`. -/
def twelve : F64 := ofDecimal false 12 0

/-- The test `std::isfinite`. -/
def isFinite : F64 → Bool
  | fin _ _ _ => true
  | _ => false

/-- The rational value of a finite double (`0` for NaN and the infinities). -/
def toRat : F64 → ℚ
  | fin s m e => (signed s m : ℚ) * 2 ^ e
  | _ => 0

/-- The pair `(m, e)` represents a double: zero or a subnormal, or a normal number. -/
def Canonical (m : Nat) (e : Int) : Prop :=
  (m < 2 ^ 52 ∧ e = -1074) ∨ (2 ^ 52 ≤ m ∧ m < 2 ^ 53 ∧ -1074 ≤ e ∧ e ≤ 971)

/-- Whether a value of the model is in the representation of a double. -/
def isDouble : F64 → Bool
  | fin _ m e =>
    decide ((m < 2 ^ 52 ∧ e = -1074) ∨ (2 ^ 52 ≤ m ∧ m < 2 ^ 53 ∧ -1074 ≤ e ∧ e ≤ 971))
  | _ => true

end F64

section DoublePrecisionSource

open F64

/-! ## The source in double precision

The helpers and the crooked and eccentric handlers once more, every operation in the order
the source writes it, over `F64`. -/

/-- The source's `PI`, the double nearest to `3.141592653589793`. -/
def PI_f64 : F64 := F64.ofDecimal false 3141592653589793 (-15)

/-- The source's `valid_positive` on doubles: `std::isfinite(x) && x > 0.0`. -/
def valid_positive_f64 (x : F64) : Bool := x.isFinite && F64.lt zero x

/-- The source's `solve_quadratic_small_root` on doubles. -/
def solve_quadratic_small_root_f64 (c1 c2 : F64) : F64 :=
  let disc := sub (mul c1 c1) (mul four c2)
  let disc := if lt disc zero then zero else disc
  div (sub (neg c1) (sqrt disc)) two

/-- The source's `euler_load_from_sr` on doubles. -/
def euler_load_from_sr_f64 (E A sr : F64) : F64 :=
  div (mul (mul (mul PI_f64 PI_f64) E) A) (mul sr sr)

/-- The source's `johnson_load` on doubles. -/
def johnson_load_f64 (A S sr E : F64) : F64 :=
  mul (mul A S) (sub one (div (mul (mul S sr) sr) (mul (mul (mul four PI_f64) PI_f64) E)))

/-- What `handle_crooked` computes, as doubles. -/
structure CrookedResultF64 where
  radius_gyration : F64
  area : F64
  slenderness_ratio : F64
  column_constant : F64
  regime : Regime
  critical_load : F64
  quad_c1 : F64
  quad_c2 : F64
  allowable_load : F64
  deriving DecidableEq

/-- What `handle_eccentric` computes, as doubles. -/
structure EccentricResultF64 where
  radius_gyration : F64
  area : F64
  slenderness_ratio : F64
  column_constant : F64
  eccentricity : F64
  regime : Regime
  critical_load : F64
  quad_c1 : F64
  quad_c2 : F64
  allowable_load : F64
  max_stress : F64
  deriving DecidableEq

/-- The branch `option == 1` of `handle_crooked` on doubles. -/
def handle_crooked_circular_f64
    (diameter end_fixity initial_crookedness design_factor length yield_strength
      elastic_modulus : F64) : CrookedResultF64 :=
  let radius_gyration := div diameter four
  let area := div (mul (mul PI_f64 diameter) diameter) four
  let slenderness_ratio := div (mul end_fixity length) radius_gyration
  let column_constant := sqrt (div (mul (mul (mul two PI_f64) PI_f64) elastic_modulus) yield_strength)
  let half_section := div diameter two
  if lt column_constant slenderness_ratio then
    let euler_P := euler_load_from_sr_f64 elastic_modulus area slenderness_ratio
    let init_crooked_term := div (mul initial_crookedness half_section) (mul radius_gyration radius_gyration)
    let quad_c1 := mul (div (neg one) design_factor) (add (mul yield_strength area) (mul (add one init_crooked_term) euler_P))
    let quad_c2 := div (mul (mul yield_strength area) euler_P) (mul design_factor design_factor)
    let allowable_load := solve_quadratic_small_root_f64 quad_c1 quad_c2
    { radius_gyration := radius_gyration, area := area,
      slenderness_ratio := slenderness_ratio, column_constant := column_constant,
      regime := Regime.long, critical_load := euler_P,
      quad_c1 := quad_c1, quad_c2 := quad_c2, allowable_load := allowable_load }
  else
    let johnson_P := johnson_load_f64 area yield_strength slenderness_ratio elastic_modulus
    let init_crooked_term := div (mul initial_crookedness half_section) (mul radius_gyration radius_gyration)
    let quad_c1 := mul (div (neg one) design_factor) (add (mul yield_strength area) (mul (add one init_crooked_term) johnson_P))
    let quad_c2 := div (mul (mul yield_strength area) johnson_P) (mul design_factor design_factor)
    let allowable_load := solve_quadratic_small_root_f64 quad_c1 quad_c2
    { radius_gyration := radius_gyration, area := area,
      slenderness_ratio := slenderness_ratio, column_constant := column_constant,
      regime := Regime.short, critical_load := johnson_P,
      quad_c1 := quad_c1, quad_c2 := quad_c2, allowable_load := allowable_load }

/-- The branch `option == 2` of `handle_crooked` on doubles. -/
def handle_crooked_rectangular_f64
    (breadth height length design_factor end_fixity yield_strength elastic_modulus : F64) :
    CrookedResultF64 :=
  let radius_gyration := div breadth (sqrt twelve)
  let area := mul breadth height
  let slenderness_ratio := div (mul end_fixity length) radius_gyration
  let column_constant := sqrt (div (mul (mul (mul two PI_f64) PI_f64) elastic_modulus) yield_strength)
  if lt column_constant slenderness_ratio then
    let euler_P := euler_load_from_sr_f64 elastic_modulus area slenderness_ratio
    let quad_c1 := mul (div (neg one) design_factor) (add (mul yield_strength area) (mul (add one zero) euler_P))
    let quad_c2 := div (mul (mul yield_strength area) euler_P) (mul design_factor design_factor)
    let allowable_load := solve_quadratic_small_root_f64 quad_c1 quad_c2
    { radius_gyration := radius_gyration, area := area,
      slenderness_ratio := slenderness_ratio, column_constant := column_constant,
      regime := Regime.long, critical_load := euler_P,
      quad_c1 := quad_c1, quad_c2 := quad_c2, allowable_load := allowable_load }
  else
    let johnson_P := johnson_load_f64 area yield_strength slenderness_ratio elastic_modulus
    let quad_c1 := mul (div (neg one) design_factor) (add (mul yield_strength area) (mul (add one zero) johnson_P))
    let quad_c2 := div (mul (mul yield_strength area) johnson_P) (mul design_factor design_factor)
    let allowable_load := solve_quadratic_small_root_f64 quad_c1 quad_c2
    { radius_gyration := radius_gyration, area := area,
      slenderness_ratio := slenderness_ratio, column_constant := column_constant,
      regime := Regime.short, critical_load := johnson_P,
      quad_c1 := quad_c1, quad_c2 := quad_c2, allowable_load := allowable_load }

/-- The branch `option == 1` of `handle_eccentric` on doubles. -/
def handle_eccentric_circular_f64
    (diameter end_fixity initial_crookedness design_factor length yield_strength
      elastic_modulus eccentricity : F64) : EccentricResultF64 :=
  let radius_gyration := div diameter four
  let area := div (mul (mul PI_f64 diameter) diameter) four
  let slenderness_ratio := div (mul end_fixity length) radius_gyration
  let column_constant := sqrt (div (mul (mul (mul two PI_f64) PI_f64) elastic_modulus) yield_strength)
  let half_section := div diameter two
  if lt column_constant slenderness_ratio then
    let euler_P := euler_load_from_sr_f64 elastic_modulus area slenderness_ratio
    let init_crooked_term := div (mul initial_crookedness half_section) (mul radius_gyration radius_gyration)
    let quad_c1 := mul (div (neg one) design_factor) (add (mul yield_strength area) (mul (add one init_crooked_term) euler_P))
    let quad_c2 := div (mul (mul yield_strength area) euler_P) (mul design_factor design_factor)
    let allowable_load := solve_quadratic_small_root_f64 quad_c1 quad_c2
    { radius_gyration := radius_gyration, area := area,
      slenderness_ratio := slenderness_ratio, column_constant := column_constant,
      eccentricity := eccentricity,
      regime := Regime.long, critical_load := euler_P,
      quad_c1 := quad_c1, quad_c2 := quad_c2, allowable_load := allowable_load,
      max_stress := div allowable_load area }
  else
    let johnson_P := johnson_load_f64 area yield_strength slenderness_ratio elastic_modulus
    let init_crooked_term := div (mul initial_crookedness half_section) (mul radius_gyration radius_gyration)
    let quad_c1 := mul (div (neg one) design_factor) (add (mul yield_strength area) (mul (add one init_crooked_term) johnson_P))
    let quad_c2 := div (mul (mul yield_strength area) johnson_P) (mul design_factor design_factor)
    let allowable_load := solve_quadratic_small_root_f64 quad_c1 quad_c2
    { radius_gyration := radius_gyration, area := area,
      slenderness_ratio := slenderness_ratio, column_constant := column_constant,
      eccentricity := eccentricity,
      regime := Regime.short, critical_load := johnson_P,
      quad_c1 := quad_c1, quad_c2 := quad_c2, allowable_load := allowable_load,
      max_stress := div allowable_load area }

/-- The branch `option == 2` of `handle_eccentric` on doubles. -/
def handle_eccentric_rectangular_f64
    (breadth height length design_factor end_fixity yield_strength elastic_modulus
      eccentricity : F64) : EccentricResultF64 :=
  let radius_gyration := div breadth (sqrt twelve)
  let area := mul breadth height
  let slenderness_ratio := div (mul end_fixity length) radius_gyration
  let column_constant := sqrt (div (mul (mul (mul two PI_f64) PI_f64) elastic_modulus) yield_strength)
  if lt column_constant slenderness_ratio then
    let euler_P := euler_load_from_sr_f64 elastic_modulus area slenderness_ratio
    let quad_c1 := mul (div (neg one) design_factor) (add (mul yield_strength area) (mul (add one zero) euler_P))
    let quad_c2 := div (mul (mul yield_strength area) euler_P) (mul design_factor design_factor)
    let allowable_load := solve_quadratic_small_root_f64 quad_c1 quad_c2
    { radius_gyration := radius_gyration, area := area,
      slenderness_ratio := slenderness_ratio, column_constant := column_constant,
      eccentricity := eccentricity,
      regime := Regime.long, critical_load := euler_P,
      quad_c1 := quad_c1, quad_c2 := quad_c2, allowable_load := allowable_load,
      max_stress := div allowable_load area }
  else
    let johnson_P := johnson_load_f64 area yield_strength slenderness_ratio elastic_modulus
    let quad_c1 := mul (div (neg one) design_factor) (add (mul yield_strength area) (mul (add one zero) johnson_P))
    let quad_c2 := div (mul (mul yield_strength area) johnson_P) (mul design_factor design_factor)
    let allowable_load := solve_quadratic_small_root_f64 quad_c1 quad_c2
    { radius_gyration := radius_gyration, area := area,
      slenderness_ratio := slenderness_ratio, column_constant := column_constant,
      eccentricity := eccentricity,
      regime := Regime.short, critical_load := johnson_P,
      quad_c1 := quad_c1, quad_c2 := quad_c2, allowable_load := allowable_load,
      max_stress := div allowable_load area }

end DoublePrecisionSource

/-! ## Regime selection -/

theorem PI_pos : 0 < PI := by
  unfold PI; norm_num

/-- The values every handler computes from `radius_gyration` and `area` follow the rule. -/
theorem regimeRule_of_branch (K L S E rg area : ℝ) :
    RegimeRule K L S E rg area ((K * L) / rg) (Real.sqrt ((2 * PI * PI * E) / S))
      (if (K * L) / rg > Real.sqrt ((2 * PI * PI * E) / S) then Regime.long else Regime.short)
      (if (K * L) / rg > Real.sqrt ((2 * PI * PI * E) / S)
        then euler_load_from_sr E area ((K * L) / rg)
        else johnson_load area S ((K * L) / rg) E) := by
  have e1 : 2 * PI ^ 2 * E / S = (2 * PI * PI * E) / S := by ring
  refine ⟨rfl, by rw [e1], ?_, ?_⟩
  · intro h
    rw [if_pos h, if_pos h]
    refine ⟨rfl, ?_⟩
    unfold euler_load_from_sr
    rw [sq, sq]
  · intro h
    rw [if_neg (not_lt.mpr h), if_neg (not_lt.mpr h)]
    refine ⟨rfl, ?_⟩
    unfold johnson_load
    ring

theorem straight_circular_followsRegimeRule (D K L S E : ℝ) :
    (handle_straight_circular D K L S E).followsRegimeRule K L S E := by
  have := regimeRule_of_branch K L S E (D / 4) ((PI * D * D) / 4)
  unfold StraightResult.followsRegimeRule
  by_cases h : (K * L) / (D / 4) > Real.sqrt ((2 * PI * PI * E) / S)
  · simp only [handle_straight_circular, if_pos h] at this ⊢
    exact this
  · simp only [handle_straight_circular, if_neg h] at this ⊢
    exact this

theorem straight_rectangular_followsRegimeRule (B H L K S E : ℝ) :
    (handle_straight_rectangular B H L K S E).followsRegimeRule K L S E := by
  have := regimeRule_of_branch K L S E (B / Real.sqrt 12) (B * H)
  unfold StraightResult.followsRegimeRule
  by_cases h : (K * L) / (B / Real.sqrt 12) > Real.sqrt ((2 * PI * PI * E) / S)
  · simp only [handle_straight_rectangular, if_pos h] at this ⊢
    exact this
  · simp only [handle_straight_rectangular, if_neg h] at this ⊢
    exact this

theorem crooked_circular_followsRegimeRule (D K a N L S E : ℝ) :
    (handle_crooked_circular D K a N L S E).followsRegimeRule K L S E := by
  have := regimeRule_of_branch K L S E (D / 4) ((PI * D * D) / 4)
  unfold CrookedResult.followsRegimeRule
  by_cases h : (K * L) / (D / 4) > Real.sqrt ((2 * PI * PI * E) / S)
  · simp only [handle_crooked_circular, if_pos h] at this ⊢
    exact this
  · simp only [handle_crooked_circular, if_neg h] at this ⊢
    exact this

theorem crooked_rectangular_followsRegimeRule (B H L N K S E : ℝ) :
    (handle_crooked_rectangular B H L N K S E).followsRegimeRule K L S E := by
  have := regimeRule_of_branch K L S E (B / Real.sqrt 12) (B * H)
  unfold CrookedResult.followsRegimeRule
  by_cases h : (K * L) / (B / Real.sqrt 12) > Real.sqrt ((2 * PI * PI * E) / S)
  · simp only [handle_crooked_rectangular, if_pos h] at this ⊢
    exact this
  · simp only [handle_crooked_rectangular, if_neg h] at this ⊢
    exact this

theorem eccentric_circular_followsRegimeRule (D K a N L S E e : ℝ) :
    (handle_eccentric_circular D K a N L S E e).followsRegimeRule K L S E := by
  have := regimeRule_of_branch K L S E (D / 4) ((PI * D * D) / 4)
  unfold EccentricResult.followsRegimeRule
  by_cases h : (K * L) / (D / 4) > Real.sqrt ((2 * PI * PI * E) / S)
  · simp only [handle_eccentric_circular, if_pos h] at this ⊢
    exact this
  · simp only [handle_eccentric_circular, if_neg h] at this ⊢
    exact this

theorem eccentric_rectangular_followsRegimeRule (B H L N K S E e : ℝ) :
    (handle_eccentric_rectangular B H L N K S E e).followsRegimeRule K L S E := by
  have := regimeRule_of_branch K L S E (B / Real.sqrt 12) (B * H)
  unfold EccentricResult.followsRegimeRule
  by_cases h : (K * L) / (B / Real.sqrt 12) > Real.sqrt ((2 * PI * PI * E) / S)
  · simp only [handle_eccentric_rectangular, if_pos h] at this ⊢
    exact this
  · simp only [handle_eccentric_rectangular, if_neg h] at this ⊢
    exact this

/-! ## The two straight-column scenarios (`S = 36000`, `E = 30000000`) -/

theorem sqrt_twelve_bounds : (3.464 : ℝ) < Real.sqrt 12 ∧ Real.sqrt 12 < 3.4642 := by
  constructor
  · rw [Real.lt_sqrt (by norm_num)]; norm_num
  · rw [Real.sqrt_lt' (by norm_num)]; norm_num

/-- The column constant of both scenarios lies between `128.25` and `128.26`. -/
theorem scenario_column_constant_bounds :
    (128.25 : ℝ) < Real.sqrt ((2 * PI * PI * 30000000) / 36000) ∧
    Real.sqrt ((2 * PI * PI * 30000000) / 36000) < 128.26 := by
  constructor
  · rw [Real.lt_sqrt (by norm_num)]; unfold PI; norm_num
  · rw [Real.sqrt_lt' (by norm_num)]; unfold PI; norm_num

/-- The slenderness ratio of scenario 2 is `50·√12`, between `173.2` and `173.21`. -/
theorem scenario_two_slenderness :
    ((1 : ℝ) * 100) / (2 / Real.sqrt 12) = 50 * Real.sqrt 12 ∧
    (173.2 : ℝ) < (1 * 100) / (2 / Real.sqrt 12) ∧ ((1 : ℝ) * 100) / (2 / Real.sqrt 12) < 173.21 := by
  have hb := sqrt_twelve_bounds
  have h0 : Real.sqrt 12 ≠ 0 := by linarith [hb.1]
  have e : ((1 : ℝ) * 100) / (2 / Real.sqrt 12) = 50 * Real.sqrt 12 := by
    field_simp; ring
  rw [e]
  refine ⟨rfl, ?_, ?_⟩ <;> linarith [hb.1, hb.2]

/-- Scenario 2 takes the long branch. -/
theorem scenario_two_long :
    handle_straight_rectangular 2 4 100 1 36000 30000000 =
      { radius_gyration := 2 / Real.sqrt 12, area := 2 * 4,
        slenderness_ratio := (1 * 100) / (2 / Real.sqrt 12),
        column_constant := Real.sqrt ((2 * PI * PI * 30000000) / 36000),
        regime := Regime.long,
        critical_load := euler_load_from_sr 30000000 (2 * 4) ((1 * 100) / (2 / Real.sqrt 12)) } := by
  have h : (1 * 100) / (2 / Real.sqrt 12) > Real.sqrt ((2 * PI * PI * 30000000) / 36000) := by
    have h1 := scenario_two_slenderness.2.1
    have h2 := scenario_column_constant_bounds.2
    linarith
  simp only [handle_straight_rectangular, if_pos h]

/-- A tie: with `D = 4`, `K = L = 1`, `S = 2·PI²` and `E = 1` the slenderness ratio and the
column constant are both `1`, and the straight circular handler takes the short branch with
Johnson's load. -/
theorem straight_circular_tie_is_short :
    (handle_straight_circular 4 1 1 (2 * PI * PI) 1).slenderness_ratio = 1 ∧
    (handle_straight_circular 4 1 1 (2 * PI * PI) 1).column_constant = 1 ∧
    (handle_straight_circular 4 1 1 (2 * PI * PI) 1).regime = Regime.short ∧
    (handle_straight_circular 4 1 1 (2 * PI * PI) 1).critical_load =
      johnson_load ((PI * 4 * 4) / 4) (2 * PI * PI) 1 1 := by
  have hp := PI_pos
  have hq : (2 * PI * PI * 1) / (2 * PI * PI) = 1 := by
    field_simp
  have hcc : Real.sqrt ((2 * PI * PI * 1) / (2 * PI * PI)) = 1 := by
    rw [hq, Real.sqrt_one]
  have hsr : ((1 : ℝ) * 1) / (4 / 4) = 1 := by norm_num
  have h : ¬ ((1 : ℝ) * 1) / (4 / 4) > Real.sqrt ((2 * PI * PI * 1) / (2 * PI * PI)) := by
    rw [hcc, hsr]
    exact lt_irrefl 1
  simp only [handle_straight_circular, if_neg h]
  exact ⟨hsr, hcc, trivial, by rw [hsr]⟩

/-- C2: on valid input every handler, for either cross-section, reports
`slenderness_ratio = K·L/radius_gyration` and `column_constant = sqrt(2·PI²·E/S)`, takes the
long regime with Euler's value when the slenderness ratio exceeds the column constant and the
short regime with Johnson's value otherwise, the tie included (`RegimeRule`); and the
rectangular input `B=2, H=4, K=1, L=100, S=36000, E=30000000` has radius of gyration
`2/√12`, area `8`, slenderness ratio in `(173.2, 173.21)`, column constant in
`(128.25, 128.26)`, and the long regime with Euler's load. -/
theorem handlers_follow_regime_rule (D B H K a N L S E e : ℝ)
    (_hD : valid_positive D) (_hB : valid_positive B) (_hH : valid_positive H)
    (_hK : valid_positive K) (_ha : valid_positive a) (_hN : valid_positive N)
    (_hL : valid_positive L) (_hS : valid_positive S) (_hE : valid_positive E)
    (_he : valid_positive e) :
    ((handle_straight_circular D K L S E).followsRegimeRule K L S E ∧
     (handle_straight_rectangular B H L K S E).followsRegimeRule K L S E ∧
     (handle_crooked_circular D K a N L S E).followsRegimeRule K L S E ∧
     (handle_crooked_rectangular B H L N K S E).followsRegimeRule K L S E ∧
     (handle_eccentric_circular D K a N L S E e).followsRegimeRule K L S E ∧
     (handle_eccentric_rectangular B H L N K S E e).followsRegimeRule K L S E) ∧
    ((handle_straight_rectangular 2 4 100 1 36000 30000000).radius_gyration = 2 / Real.sqrt 12 ∧
     (handle_straight_rectangular 2 4 100 1 36000 30000000).area = 8 ∧
     173.2 < (handle_straight_rectangular 2 4 100 1 36000 30000000).slenderness_ratio ∧
     (handle_straight_rectangular 2 4 100 1 36000 30000000).slenderness_ratio < 173.21 ∧
     128.25 < (handle_straight_rectangular 2 4 100 1 36000 30000000).column_constant ∧
     (handle_straight_rectangular 2 4 100 1 36000 30000000).column_constant < 128.26 ∧
     (handle_straight_rectangular 2 4 100 1 36000 30000000).regime = Regime.long ∧
     (handle_straight_rectangular 2 4 100 1 36000 30000000).critical_load =
       euler_load_from_sr 30000000 8
         (handle_straight_rectangular 2 4 100 1 36000 30000000).slenderness_ratio) := by
  refine ⟨⟨straight_circular_followsRegimeRule D K L S E,
    straight_rectangular_followsRegimeRule B H L K S E,
    crooked_circular_followsRegimeRule D K a N L S E,
    crooked_rectangular_followsRegimeRule B H L N K S E,
    eccentric_circular_followsRegimeRule D K a N L S E e,
    eccentric_rectangular_followsRegimeRule B H L N K S E e⟩, ?_⟩
  rw [scenario_two_long]
  have h1 := scenario_two_slenderness
  have h2 := scenario_column_constant_bounds
  refine ⟨rfl, by norm_num, h1.2.1, h1.2.2, h2.1, h2.2, rfl, ?_⟩
  norm_num

/-- The regime rule applied at `D = 4, B = 2, H = 4, K = 1, a = 1, N = 2, L = 100,
S = 36000, E = 30000000, e = 1`, all valid: the rectangular straight handler follows the
rule there and is in the long regime. -/
theorem handlers_follow_regime_rule_witness :
    (handle_straight_rectangular 2 4 100 1 36000 30000000).followsRegimeRule 1 100 36000 30000000 ∧
    (handle_straight_rectangular 2 4 100 1 36000 30000000).regime = Regime.long :=
  have h := handlers_follow_regime_rule 4 2 4 1 1 2 100 36000 30000000 1
    (by norm_num [valid_positive]) (by norm_num [valid_positive]) (by norm_num [valid_positive])
    (by norm_num [valid_positive]) (by norm_num [valid_positive]) (by norm_num [valid_positive])
    (by norm_num [valid_positive]) (by norm_num [valid_positive]) (by norm_num [valid_positive])
    (by norm_num [valid_positive])
  ⟨h.1.2.1, h.2.2.2.2.2.2.2.1⟩

/-- Scenario 1 takes the short branch. -/
theorem scenario_one_short :
    handle_straight_circular 2 1 50 36000 30000000 =
      { radius_gyration := 2 / 4, area := (PI * 2 * 2) / 4,
        slenderness_ratio := (1 * 50) / (2 / 4),
        column_constant := Real.sqrt ((2 * PI * PI * 30000000) / 36000),
        regime := Regime.short,
        critical_load := johnson_load ((PI * 2 * 2) / 4) 36000 ((1 * 50) / (2 / 4)) 30000000 } := by
  have h : ¬ ((1 : ℝ) * 50) / (2 / 4) > Real.sqrt ((2 * PI * PI * 30000000) / 36000) := by
    have h2 := scenario_column_constant_bounds.1
    have e : ((1 : ℝ) * 50) / (2 / 4) = 100 := by norm_num
    rw [e]
    linarith
  simp only [handle_straight_circular, if_neg h]

/-- Johnson's load of scenario 1 is `36000·(PI − 3/PI)`, about `78719.8678`. -/
theorem scenario_one_johnson :
    (78719.8678 : ℝ) < johnson_load ((PI * 2 * 2) / 4) 36000 ((1 * 50) / (2 / 4)) 30000000 ∧
    johnson_load ((PI * 2 * 2) / 4) 36000 ((1 * 50) / (2 / 4)) 30000000 < 78719.8679 := by
  unfold johnson_load PI
  constructor <;> norm_num

/-- C3 (as amended): for the straight circular case `D=2, K=1, L=50, S=36000, E=30000000`
the handler computes radius of gyration `0.5`, area `PI`, slenderness ratio `100`, a column
constant between `128.25` and `128.26`, selects the short (Johnson) regime, and the critical
load is Johnson's value, which lies between `78719.8678` and `78719.8679`: it rounds to
`78720`. -/
theorem scenario_one_straight_circular :
    (handle_straight_circular 2 1 50 36000 30000000).radius_gyration = 0.5 ∧
    (handle_straight_circular 2 1 50 36000 30000000).area = PI ∧
    (handle_straight_circular 2 1 50 36000 30000000).slenderness_ratio = 100 ∧
    128.25 < (handle_straight_circular 2 1 50 36000 30000000).column_constant ∧
    (handle_straight_circular 2 1 50 36000 30000000).column_constant < 128.26 ∧
    (handle_straight_circular 2 1 50 36000 30000000).regime = Regime.short ∧
    (handle_straight_circular 2 1 50 36000 30000000).critical_load =
      johnson_load PI 36000 100 30000000 ∧
    78719.8678 < (handle_straight_circular 2 1 50 36000 30000000).critical_load ∧
    (handle_straight_circular 2 1 50 36000 30000000).critical_load < 78719.8679 ∧
    |(handle_straight_circular 2 1 50 36000 30000000).critical_load - 78720| < 1 / 2 := by
  rw [scenario_one_short]
  have hc := scenario_column_constant_bounds
  have hj := scenario_one_johnson
  have ea : (PI * 2 * 2) / 4 = PI := by ring
  have es : ((1 : ℝ) * 50) / (2 / 4) = 100 := by norm_num
  refine ⟨by norm_num, ea, es, hc.1, hc.2, rfl, by simp only [ea, es], hj.1, hj.2, ?_⟩
  simp only
  rw [abs_lt]
  constructor <;> linarith [hj.1, hj.2]

/-- C3 (as stated) fails: the critical load the handler computes for `D=2, K=1, L=50,
S=36000, E=30000000` is below `78720`, so it is not within one half of `90358`: rounded to
the nearest integer it is not `90358`. -/
theorem scenario_one_not_90358 :
    (handle_straight_circular 2 1 50 36000 30000000).critical_load < 78720 ∧
    ¬ |(handle_straight_circular 2 1 50 36000 30000000).critical_load - 90358| ≤ 1 / 2 := by
  rw [scenario_one_short]
  have hj := scenario_one_johnson
  simp only
  refine ⟨by linarith [hj.2], ?_⟩
  intro h
  have := (abs_le.mp h).1
  linarith [hj.2]

/-! ## The eccentricity -/

/-- The circular eccentric handler computes what the circular crooked handler computes, and
adds the eccentricity it read and `allowable_load / area`. -/
theorem eccentric_circular_eq_crooked (D K a N L S E e : ℝ) :
    handle_eccentric_circular D K a N L S E e =
      { radius_gyration := (handle_crooked_circular D K a N L S E).radius_gyration,
        area := (handle_crooked_circular D K a N L S E).area,
        slenderness_ratio := (handle_crooked_circular D K a N L S E).slenderness_ratio,
        column_constant := (handle_crooked_circular D K a N L S E).column_constant,
        eccentricity := e,
        regime := (handle_crooked_circular D K a N L S E).regime,
        critical_load := (handle_crooked_circular D K a N L S E).critical_load,
        quad_c1 := (handle_crooked_circular D K a N L S E).quad_c1,
        quad_c2 := (handle_crooked_circular D K a N L S E).quad_c2,
        allowable_load := (handle_crooked_circular D K a N L S E).allowable_load,
        max_stress := (handle_crooked_circular D K a N L S E).allowable_load /
          (handle_crooked_circular D K a N L S E).area } := by
  by_cases h : (K * L) / (D / 4) > Real.sqrt ((2 * PI * PI * E) / S)
  · simp only [handle_eccentric_circular, handle_crooked_circular, if_pos h]
  · simp only [handle_eccentric_circular, handle_crooked_circular, if_neg h]

/-- The rectangular eccentric handler computes what the rectangular crooked handler
computes, and adds the eccentricity it read and `allowable_load / area`. -/
theorem eccentric_rectangular_eq_crooked (B H L N K S E e : ℝ) :
    handle_eccentric_rectangular B H L N K S E e =
      { radius_gyration := (handle_crooked_rectangular B H L N K S E).radius_gyration,
        area := (handle_crooked_rectangular B H L N K S E).area,
        slenderness_ratio := (handle_crooked_rectangular B H L N K S E).slenderness_ratio,
        column_constant := (handle_crooked_rectangular B H L N K S E).column_constant,
        eccentricity := e,
        regime := (handle_crooked_rectangular B H L N K S E).regime,
        critical_load := (handle_crooked_rectangular B H L N K S E).critical_load,
        quad_c1 := (handle_crooked_rectangular B H L N K S E).quad_c1,
        quad_c2 := (handle_crooked_rectangular B H L N K S E).quad_c2,
        allowable_load := (handle_crooked_rectangular B H L N K S E).allowable_load,
        max_stress := (handle_crooked_rectangular B H L N K S E).allowable_load /
          (handle_crooked_rectangular B H L N K S E).area } := by
  by_cases h : (K * L) / (B / Real.sqrt 12) > Real.sqrt ((2 * PI * PI * E) / S)
  · simp only [handle_eccentric_rectangular, handle_crooked_rectangular, if_pos h]
  · simp only [handle_eccentric_rectangular, handle_crooked_rectangular, if_neg h]

/-- C6: on valid input and for either cross-section, the critical load and the allowable
load of the eccentric handler are the same for every two eccentricities `e` and `e'` and
equal those of the crooked handler on the remaining parameters; the reported maximum stress
is `allowable_load / area`. -/
theorem eccentricity_not_in_load (D B H K a N L S E e e' : ℝ)
    (_hD : valid_positive D) (_hB : valid_positive B) (_hH : valid_positive H)
    (_hK : valid_positive K) (_ha : valid_positive a) (_hN : valid_positive N)
    (_hL : valid_positive L) (_hS : valid_positive S) (_hE : valid_positive E)
    (_he : valid_positive e) (_he' : valid_positive e') :
    ((handle_eccentric_circular D K a N L S E e).critical_load =
        (handle_eccentric_circular D K a N L S E e').critical_load ∧
     (handle_eccentric_circular D K a N L S E e).allowable_load =
        (handle_eccentric_circular D K a N L S E e').allowable_load ∧
     (handle_eccentric_circular D K a N L S E e).critical_load =
        (handle_crooked_circular D K a N L S E).critical_load ∧
     (handle_eccentric_circular D K a N L S E e).allowable_load =
        (handle_crooked_circular D K a N L S E).allowable_load ∧
     (handle_eccentric_circular D K a N L S E e).max_stress =
        (handle_eccentric_circular D K a N L S E e).allowable_load /
          (handle_eccentric_circular D K a N L S E e).area) ∧
    ((handle_eccentric_rectangular B H L N K S E e).critical_load =
        (handle_eccentric_rectangular B H L N K S E e').critical_load ∧
     (handle_eccentric_rectangular B H L N K S E e).allowable_load =
        (handle_eccentric_rectangular B H L N K S E e').allowable_load ∧
     (handle_eccentric_rectangular B H L N K S E e).critical_load =
        (handle_crooked_rectangular B H L N K S E).critical_load ∧
     (handle_eccentric_rectangular B H L N K S E e).allowable_load =
        (handle_crooked_rectangular B H L N K S E).allowable_load ∧
     (handle_eccentric_rectangular B H L N K S E e).max_stress =
        (handle_eccentric_rectangular B H L N K S E e).allowable_load /
          (handle_eccentric_rectangular B H L N K S E e).area) := by
  rw [eccentric_circular_eq_crooked D K a N L S E e,
    eccentric_circular_eq_crooked D K a N L S E e',
    eccentric_rectangular_eq_crooked B H L N K S E e,
    eccentric_rectangular_eq_crooked B H L N K S E e']
  exact ⟨⟨rfl, rfl, rfl, rfl, rfl⟩, ⟨rfl, rfl, rfl, rfl, rfl⟩⟩

/-- The eccentricities `e = 1/2` and `e' = 7` at `D = 2, B = 2, H = 4, K = 1, a = 1/8,
N = 3, L = 100, S = 36000, E = 30000000`: the allowable loads of the circular and of the
rectangular eccentric handler do not change. -/
theorem eccentricity_not_in_load_witness :
    (handle_eccentric_circular 2 1 (1 / 8) 3 100 36000 30000000 (1 / 2)).allowable_load =
      (handle_eccentric_circular 2 1 (1 / 8) 3 100 36000 30000000 7).allowable_load ∧
    (handle_eccentric_rectangular 2 4 100 3 1 36000 30000000 (1 / 2)).allowable_load =
      (handle_eccentric_rectangular 2 4 100 3 1 36000 30000000 7).allowable_load :=
  have h := eccentricity_not_in_load 2 2 4 1 (1 / 8) 3 100 36000 30000000 (1 / 2) 7
    (by norm_num [valid_positive]) (by norm_num [valid_positive]) (by norm_num [valid_positive])
    (by norm_num [valid_positive]) (by norm_num [valid_positive]) (by norm_num [valid_positive])
    (by norm_num [valid_positive]) (by norm_num [valid_positive]) (by norm_num [valid_positive])
    (by norm_num [valid_positive]) (by norm_num [valid_positive])
  ⟨h.1.2.1, h.2.2.1⟩

/-! ## Exact real arithmetic

What the formulas of the solver and of the crooked and eccentric handlers satisfy when no
operation rounds.  These are statements about the formulas, not about the values the
program computes in `double`; the sections on double precision below state what survives
rounding, overflow and underflow, and what does not. -/

/-- With a non-negative discriminant the clamp is the identity. -/
theorem solve_quadratic_small_root_of_nonneg (c1 c2 : ℝ) (h : 0 ≤ c1 * c1 - 4 * c2) :
    solve_quadratic_small_root c1 c2 = (-c1 - Real.sqrt (c1 * c1 - 4 * c2)) / 2 := by
  simp [solve_quadratic_small_root, not_lt.mpr h]

/-- In exact real arithmetic, when `C1² ≥ 4·C2` the value of the solver's formula is a root
of `x² + C1·x + C2 = 0` and no root of that equation is smaller. -/
theorem real_small_root_is_smaller_root (C1 C2 : ℝ) (h : C1 ^ 2 ≥ 4 * C2) :
    (solve_quadratic_small_root C1 C2) ^ 2 + C1 * solve_quadratic_small_root C1 C2 + C2 = 0 ∧
    ∀ x : ℝ, x ^ 2 + C1 * x + C2 = 0 → solve_quadratic_small_root C1 C2 ≤ x := by
  have hd : 0 ≤ C1 * C1 - 4 * C2 := by nlinarith
  rw [solve_quadratic_small_root_of_nonneg C1 C2 hd]
  have hs : Real.sqrt (C1 * C1 - 4 * C2) ^ 2 = C1 * C1 - 4 * C2 := Real.sq_sqrt hd
  have hs0 : 0 ≤ Real.sqrt (C1 * C1 - 4 * C2) := Real.sqrt_nonneg _
  refine ⟨by nlinarith, ?_⟩
  intro x hx
  have hx2 : (2 * x + C1) ^ 2 = Real.sqrt (C1 * C1 - 4 * C2) ^ 2 := by
    rw [hs]; nlinarith
  have habs : |2 * x + C1| = Real.sqrt (C1 * C1 - 4 * C2) := by
    rw [← abs_of_nonneg hs0]
    exact (sq_eq_sq_iff_abs_eq_abs _ _).mp hx2
  have := neg_abs_le (2 * x + C1)
  linarith

/-- In exact real arithmetic, when `C1² ≤ 4·C2` the value of the solver's formula is
`-C1/2`. -/
theorem real_small_root_clamped (C1 C2 : ℝ) (h : C1 ^ 2 ≤ 4 * C2) :
    solve_quadratic_small_root C1 C2 = -C1 / 2 := by
  have hd : C1 * C1 - 4 * C2 ≤ 0 := by nlinarith
  unfold solve_quadratic_small_root
  by_cases hlt : C1 * C1 - 4 * C2 < 0
  · simp [hlt]
  · have h0 : C1 * C1 - 4 * C2 = 0 := le_antisymm hd (not_lt.mp hlt)
    simp [h0]

theorem column_constant_arg_pos (S E : ℝ) (hS : 0 < S) (hE : 0 < E) :
    0 < (2 * PI * PI * E) / S := by
  have := PI_pos
  positivity

/-- Above the column constant Euler's load is positive and below half of `S·A`. -/
theorem euler_load_bounds (E A S sr : ℝ) (hE : 0 < E) (hA : 0 < A) (hS : 0 < S)
    (h : sr > Real.sqrt ((2 * PI * PI * E) / S)) :
    0 < sr ∧ 0 < euler_load_from_sr E A sr ∧ euler_load_from_sr E A sr < S * A / 2 := by
  have hp := PI_pos
  have hsr : 0 < sr := lt_of_le_of_lt (Real.sqrt_nonneg _) h
  have hq : (2 * PI * PI * E) / S < sr ^ 2 := (Real.sqrt_lt' hsr).mp h
  have hq2 : 2 * PI * PI * E < sr ^ 2 * S := (div_lt_iff₀ hS).mp hq
  have hss : 0 < sr * sr := mul_pos hsr hsr
  refine ⟨hsr, ?_, ?_⟩
  · unfold euler_load_from_sr; positivity
  · unfold euler_load_from_sr
    rw [div_lt_iff₀ hss]
    nlinarith [mul_pos hA hE, mul_pos hp hp]

/-- At or below the column constant Johnson's load is at least half of `S·A`, and below
`S·A`. -/
theorem johnson_load_bounds (E A S sr : ℝ) (hE : 0 < E) (hA : 0 < A) (hS : 0 < S)
    (hsr : 0 < sr) (h : sr ≤ Real.sqrt ((2 * PI * PI * E) / S)) :
    S * A / 2 ≤ johnson_load A S sr E ∧ johnson_load A S sr E < S * A := by
  have hp := PI_pos
  have hq : sr ^ 2 ≤ (2 * PI * PI * E) / S := (Real.le_sqrt' hsr).mp h
  have hq2 : sr ^ 2 * S ≤ 2 * PI * PI * E := (le_div_iff₀ hS).mp hq
  have hden : 0 < 4 * PI * PI * E := by positivity
  have hr1 : (S * sr * sr) / (4 * PI * PI * E) ≤ 1 / 2 := by
    rw [div_le_iff₀ hden]; nlinarith
  have hr0 : 0 < (S * sr * sr) / (4 * PI * PI * E) := by positivity
  have hAS : 0 < A * S := mul_pos hA hS
  unfold johnson_load
  constructor
  · nlinarith
  · nlinarith

/-- The discriminant of the allowable-load quadratic, written as a sum of non-negative
terms over `N²`. -/
theorem quad_disc_eq (Sa Pc N t : ℝ) (hN : 0 < N) :
    ((-1 / N) * (Sa + (1 + t) * Pc)) * ((-1 / N) * (Sa + (1 + t) * Pc))
        - 4 * ((Sa * Pc) / (N * N))
      = ((Sa - Pc) ^ 2 + t * Pc * (2 * (Sa + Pc) + t * Pc)) / (N * N) := by
  field_simp
  ring

theorem quad_disc_nonneg (Sa Pc N t : ℝ) (hSa : 0 < Sa) (hPc : 0 < Pc) (hN : 0 < N)
    (ht : 0 ≤ t) :
    0 ≤ ((-1 / N) * (Sa + (1 + t) * Pc)) * ((-1 / N) * (Sa + (1 + t) * Pc))
        - 4 * ((Sa * Pc) / (N * N)) := by
  rw [quad_disc_eq Sa Pc N t hN]
  have h1 : 0 ≤ t * Pc * (2 * (Sa + Pc) + t * Pc) :=
    mul_nonneg (mul_nonneg ht hPc.le) (by nlinarith [mul_nonneg ht hPc.le])
  exact div_nonneg (add_nonneg (sq_nonneg _) h1) (mul_pos hN hN).le

/-- With a non-negative discriminant the value returned is a root. -/
theorem solve_quadratic_small_root_root (c1 c2 : ℝ) (h : 0 ≤ c1 * c1 - 4 * c2) :
    (solve_quadratic_small_root c1 c2) ^ 2 + c1 * solve_quadratic_small_root c1 c2 + c2 = 0 := by
  rw [solve_quadratic_small_root_of_nonneg c1 c2 h]
  have hs : Real.sqrt (c1 * c1 - 4 * c2) ^ 2 = c1 * c1 - 4 * c2 := Real.sq_sqrt h
  nlinarith

/-- A point where the quadratic is negative lies above the value returned. -/
theorem solve_quadratic_small_root_lt (c1 c2 y : ℝ) (h : y ^ 2 + c1 * y + c2 < 0) :
    solve_quadratic_small_root c1 c2 < y := by
  have hd : (2 * y + c1) ^ 2 < c1 * c1 - 4 * c2 := by nlinarith
  have hd0 : 0 ≤ c1 * c1 - 4 * c2 := le_trans (sq_nonneg _) hd.le
  rw [solve_quadratic_small_root_of_nonneg c1 c2 hd0]
  have habs : |2 * y + c1| < Real.sqrt (c1 * c1 - 4 * c2) := by
    rw [Real.lt_sqrt (abs_nonneg _), sq_abs]
    exact hd
  have := (abs_lt.mp habs).1
  linarith

/-- With `c1 < 0 < c2` the value returned is positive. -/
theorem solve_quadratic_small_root_pos (c1 c2 : ℝ) (h1 : c1 < 0) (h2 : 0 < c2) :
    0 < solve_quadratic_small_root c1 c2 := by
  unfold solve_quadratic_small_root
  have hneg : 0 < -c1 := by linarith
  have hlt : Real.sqrt (if c1 * c1 - 4 * c2 < 0 then 0 else c1 * c1 - 4 * c2) < -c1 := by
    rw [Real.sqrt_lt' hneg]
    split_ifs <;> nlinarith
  simp only
  linarith

/-- With no crookedness term and `Pc < Sa` the value returned is `Pc / N`. -/
theorem solve_quadratic_small_root_no_crook (Sa Pc N : ℝ) (hN : 0 < N) (h : Pc < Sa) :
    solve_quadratic_small_root ((-1 / N) * (Sa + (1 + 0) * Pc)) ((Sa * Pc) / (N * N))
      = Pc / N := by
  have hd := quad_disc_eq Sa Pc N 0 hN
  have hd0 : 0 ≤ ((-1 / N) * (Sa + (1 + 0) * Pc)) * ((-1 / N) * (Sa + (1 + 0) * Pc))
        - 4 * ((Sa * Pc) / (N * N)) := by
    rw [hd]
    exact div_nonneg (by nlinarith [sq_nonneg (Sa - Pc)]) (mul_pos hN hN).le
  rw [solve_quadratic_small_root_of_nonneg _ _ hd0, hd]
  have hsq : Real.sqrt (((Sa - Pc) ^ 2 + 0 * Pc * (2 * (Sa + Pc) + 0 * Pc)) / (N * N))
      = (Sa - Pc) / N := by
    rw [Real.sqrt_eq_iff_mul_self_eq
      (div_nonneg (by nlinarith [sq_nonneg (Sa - Pc)]) (mul_pos hN hN).le)
      (div_nonneg (by linarith) hN.le)]
    field_simp
    ring
  rw [hsq]
  field_simp
  ring

/-- On valid input the circular crooked handler returns the record below for some critical
load `Pc` with `0 < Pc < S·area`. -/
theorem crooked_circular_form (D K a N L S E : ℝ) (hD : 0 < D) (hK : 0 < K) (hL : 0 < L)
    (hS : 0 < S) (hE : 0 < E) :
    ∃ (Pc : ℝ) (regime : Regime), 0 < Pc ∧ Pc < S * ((PI * D * D) / 4) ∧
      handle_crooked_circular D K a N L S E =
        { radius_gyration := D / 4, area := (PI * D * D) / 4,
          slenderness_ratio := (K * L) / (D / 4),
          column_constant := Real.sqrt ((2 * PI * PI * E) / S),
          regime := regime, critical_load := Pc,
          quad_c1 := (-1 / N) *
            ((S * ((PI * D * D) / 4)) + (1 + (a * (D / 2)) / ((D / 4) * (D / 4))) * Pc),
          quad_c2 := (S * ((PI * D * D) / 4) * Pc) / (N * N),
          allowable_load := solve_quadratic_small_root
            ((-1 / N) *
              ((S * ((PI * D * D) / 4)) + (1 + (a * (D / 2)) / ((D / 4) * (D / 4))) * Pc))
            ((S * ((PI * D * D) / 4) * Pc) / (N * N)) } := by
  have hp := PI_pos
  have hA : 0 < (PI * D * D) / 4 := by positivity
  have hsr : 0 < (K * L) / (D / 4) := by positivity
  by_cases h : (K * L) / (D / 4) > Real.sqrt ((2 * PI * PI * E) / S)
  · obtain ⟨-, h1, h2⟩ := euler_load_bounds E _ S _ hE hA hS h
    refine ⟨_, Regime.long, h1, by nlinarith [mul_pos hS hA], ?_⟩
    simp only [handle_crooked_circular, if_pos h]
  · obtain ⟨h1, h2⟩ := johnson_load_bounds E _ S _ hE hA hS hsr (not_lt.mp h)
    refine ⟨_, Regime.short, by nlinarith [mul_pos hS hA], h2, ?_⟩
    simp only [handle_crooked_circular, if_neg h]

/-- On valid input the rectangular crooked handler returns the record below for some
critical load `Pc` with `0 < Pc < S·area`. -/
theorem crooked_rectangular_form (B H L N K S E : ℝ) (hB : 0 < B) (hH : 0 < H)
    (hL : 0 < L) (hK : 0 < K) (hS : 0 < S) (hE : 0 < E) :
    ∃ (Pc : ℝ) (regime : Regime), 0 < Pc ∧ Pc < S * (B * H) ∧
      handle_crooked_rectangular B H L N K S E =
        { radius_gyration := B / Real.sqrt 12, area := B * H,
          slenderness_ratio := (K * L) / (B / Real.sqrt 12),
          column_constant := Real.sqrt ((2 * PI * PI * E) / S),
          regime := regime, critical_load := Pc,
          quad_c1 := (-1 / N) * ((S * (B * H)) + (1 + 0) * Pc),
          quad_c2 := (S * (B * H) * Pc) / (N * N),
          allowable_load := solve_quadratic_small_root
            ((-1 / N) * ((S * (B * H)) + (1 + 0) * Pc)) ((S * (B * H) * Pc) / (N * N)) } := by
  have hp := PI_pos
  have hA : 0 < B * H := by positivity
  have h12 : 0 < Real.sqrt 12 := Real.sqrt_pos.mpr (by norm_num)
  have hsr : 0 < (K * L) / (B / Real.sqrt 12) := by positivity
  by_cases h : (K * L) / (B / Real.sqrt 12) > Real.sqrt ((2 * PI * PI * E) / S)
  · obtain ⟨-, h1, h2⟩ := euler_load_bounds E _ S _ hE hA hS h
    refine ⟨_, Regime.long, h1, by nlinarith [mul_pos hS hA], ?_⟩
    simp only [handle_crooked_rectangular, if_pos h]
  · obtain ⟨h1, h2⟩ := johnson_load_bounds E _ S _ hE hA hS hsr (not_lt.mp h)
    refine ⟨_, Regime.short, by nlinarith [mul_pos hS hA], h2, ?_⟩
    simp only [handle_crooked_rectangular, if_neg h]

/-- In exact real arithmetic, for positive input to the crooked circular case the
coefficients `C1 = −(1/N)·(S·area + (1 + a·(D/2)/radius_gyration²)·critical_load)` and
`C2 = S·area·critical_load/N²` satisfy `C1² − 4·C2 ≥ 0` and the value of the solver's
formula is a root of `P² + C1·P + C2 = 0`. -/
theorem real_crooked_circular_allowable_is_root (D K a N L S E : ℝ)
    (hD : valid_positive D) (hK : valid_positive K) (ha : valid_positive a)
    (hN : valid_positive N) (hL : valid_positive L) (hS : valid_positive S)
    (hE : valid_positive E) :
    (handle_crooked_circular D K a N L S E).quad_c1 =
      -(1 / N) * (S * (handle_crooked_circular D K a N L S E).area +
        (1 + a * (D / 2) / (handle_crooked_circular D K a N L S E).radius_gyration ^ 2) *
          (handle_crooked_circular D K a N L S E).critical_load) ∧
    (handle_crooked_circular D K a N L S E).quad_c2 =
      S * (handle_crooked_circular D K a N L S E).area *
        (handle_crooked_circular D K a N L S E).critical_load / N ^ 2 ∧
    (handle_crooked_circular D K a N L S E).quad_c1 ^ 2 -
      4 * (handle_crooked_circular D K a N L S E).quad_c2 ≥ 0 ∧
    (handle_crooked_circular D K a N L S E).allowable_load =
      (-(handle_crooked_circular D K a N L S E).quad_c1 -
        Real.sqrt ((handle_crooked_circular D K a N L S E).quad_c1 ^ 2 -
          4 * (handle_crooked_circular D K a N L S E).quad_c2)) / 2 ∧
    (handle_crooked_circular D K a N L S E).allowable_load ^ 2 +
      (handle_crooked_circular D K a N L S E).quad_c1 *
        (handle_crooked_circular D K a N L S E).allowable_load +
      (handle_crooked_circular D K a N L S E).quad_c2 = 0 := by
  obtain ⟨Pc, regime, hPc, -, hform⟩ := crooked_circular_form D K a N L S E hD hK hL hS hE
  rw [hform]
  simp only
  have hp := PI_pos
  have hD0 : (0 : ℝ) < D := hD
  have ha0 : (0 : ℝ) < a := ha
  have hSa : 0 < S * ((PI * D * D) / 4) := mul_pos hS (by positivity)
  have ht : 0 ≤ (a * (D / 2)) / ((D / 4) * (D / 4)) := by positivity
  have hd := quad_disc_nonneg _ Pc N _ hSa hPc hN ht
  refine ⟨by ring, by ring, ?_, ?_, solve_quadratic_small_root_root _ _ hd⟩
  · rw [sq]; exact hd
  · rw [solve_quadratic_small_root_of_nonneg _ _ hd, sq]

/-- In exact real arithmetic the two formulas agree at the regime boundary: for positive
`E`, `S` and `A`, at the slenderness ratio `sqrt(2·PI²·E/S)` both have the value `A·S/2`. -/
theorem real_euler_eq_johnson_at_column_constant (E S A : ℝ) (hE : 0 < E) (hS : 0 < S)
    (_hA : 0 < A) :
    euler_load_from_sr E A (Real.sqrt (2 * PI ^ 2 * E / S)) = A * S / 2 ∧
    johnson_load A S (Real.sqrt (2 * PI ^ 2 * E / S)) E = A * S / 2 ∧
    euler_load_from_sr E A (Real.sqrt (2 * PI ^ 2 * E / S)) =
      johnson_load A S (Real.sqrt (2 * PI ^ 2 * E / S)) E := by
  have hp := PI_pos
  have hq : 0 ≤ 2 * PI ^ 2 * E / S := by positivity
  have hc : Real.sqrt (2 * PI ^ 2 * E / S) * Real.sqrt (2 * PI ^ 2 * E / S)
      = 2 * PI ^ 2 * E / S := Real.mul_self_sqrt hq
  have h1 : euler_load_from_sr E A (Real.sqrt (2 * PI ^ 2 * E / S)) = A * S / 2 := by
    unfold euler_load_from_sr
    rw [hc]
    field_simp
    ring
  have h2 : johnson_load A S (Real.sqrt (2 * PI ^ 2 * E / S)) E = A * S / 2 := by
    unfold johnson_load
    rw [mul_assoc S, hc]
    field_simp
    ring
  exact ⟨h1, h2, h1.trans h2.symm⟩

/-- Without a crookedness term the quadratic factors as `(x − Pc/N)·(x − Sa/N)`. -/
theorem quad_no_crook_roots (Sa Pc N x : ℝ) (hN : 0 < N) :
    x ^ 2 + ((-1 / N) * (Sa + (1 + 0) * Pc)) * x + (Sa * Pc) / (N * N) = 0 ↔
      x = Pc / N ∨ x = Sa / N := by
  have hfac : x ^ 2 + ((-1 / N) * (Sa + (1 + 0) * Pc)) * x + (Sa * Pc) / (N * N)
      = (x - Pc / N) * (x - Sa / N) := by
    field_simp
    ring
  rw [hfac, mul_eq_zero, sub_eq_zero, sub_eq_zero]

/-- The rectangular crooked handler in exact real arithmetic: critical load, roots and
allowable load. -/
theorem crooked_rectangular_allowable (B H L N K S E : ℝ) (hB : 0 < B) (hH : 0 < H)
    (hL : 0 < L) (hN : 0 < N) (hK : 0 < K) (hS : 0 < S) (hE : 0 < E) :
    (handle_crooked_rectangular B H L N K S E).critical_load <
      S * (handle_crooked_rectangular B H L N K S E).area ∧
    (∀ x : ℝ,
      x ^ 2 + (handle_crooked_rectangular B H L N K S E).quad_c1 * x +
          (handle_crooked_rectangular B H L N K S E).quad_c2 = 0 ↔
        x = (handle_crooked_rectangular B H L N K S E).critical_load / N ∨
        x = S * (handle_crooked_rectangular B H L N K S E).area / N) ∧
    (handle_crooked_rectangular B H L N K S E).allowable_load =
      (handle_crooked_rectangular B H L N K S E).critical_load / N := by
  obtain ⟨Pc, regime, -, hlt, hform⟩ := crooked_rectangular_form B H L N K S E hB hH hL hK hS hE
  rw [hform]
  simp only
  exact ⟨hlt, fun x => quad_no_crook_roots _ Pc N x hN,
    solve_quadratic_small_root_no_crook _ Pc N hN hlt⟩

/-- In exact real arithmetic, for positive input to the rectangular crooked or eccentric
case the critical load is below `S·area`, the roots of `x² + C1·x + C2 = 0` are
`critical_load/N` and `S·area/N`, and the value of the solver's formula is
`critical_load/N`. -/
theorem real_rectangular_allowable (B H L N K S E e : ℝ)
    (hB : valid_positive B) (hH : valid_positive H) (hL : valid_positive L)
    (hN : valid_positive N) (hK : valid_positive K) (hS : valid_positive S)
    (hE : valid_positive E) (_he : valid_positive e) :
    ((handle_crooked_rectangular B H L N K S E).critical_load <
        S * (handle_crooked_rectangular B H L N K S E).area ∧
     (∀ x : ℝ,
        x ^ 2 + (handle_crooked_rectangular B H L N K S E).quad_c1 * x +
            (handle_crooked_rectangular B H L N K S E).quad_c2 = 0 ↔
          x = (handle_crooked_rectangular B H L N K S E).critical_load / N ∨
          x = S * (handle_crooked_rectangular B H L N K S E).area / N) ∧
     (handle_crooked_rectangular B H L N K S E).allowable_load =
        (handle_crooked_rectangular B H L N K S E).critical_load / N) ∧
    ((handle_eccentric_rectangular B H L N K S E e).critical_load <
        S * (handle_eccentric_rectangular B H L N K S E e).area ∧
     (∀ x : ℝ,
        x ^ 2 + (handle_eccentric_rectangular B H L N K S E e).quad_c1 * x +
            (handle_eccentric_rectangular B H L N K S E e).quad_c2 = 0 ↔
          x = (handle_eccentric_rectangular B H L N K S E e).critical_load / N ∨
          x = S * (handle_eccentric_rectangular B H L N K S E e).area / N) ∧
     (handle_eccentric_rectangular B H L N K S E e).allowable_load =
        (handle_eccentric_rectangular B H L N K S E e).critical_load / N) := by
  have h := crooked_rectangular_allowable B H L N K S E hB hH hL hN hK hS hE
  refine ⟨h, ?_⟩
  rw [eccentric_rectangular_eq_crooked B H L N K S E e]
  exact h

/-- The quadratic at `Pc/N`. -/
theorem quad_at_critical (Sa Pc N t : ℝ) (hN : 0 < N) :
    (Pc / N) ^ 2 + ((-1 / N) * (Sa + (1 + t) * Pc)) * (Pc / N) + (Sa * Pc) / (N * N)
      = -(t * Pc ^ 2) / (N * N) := by
  field_simp
  ring

/-- The quadratic at `Sa/N`. -/
theorem quad_at_yield (Sa Pc N t : ℝ) (hN : 0 < N) :
    (Sa / N) ^ 2 + ((-1 / N) * (Sa + (1 + t) * Pc)) * (Sa / N) + (Sa * Pc) / (N * N)
      = -(t * Pc * Sa) / (N * N) := by
  field_simp
  ring

/-- With a positive crookedness term the value returned is positive, below `Pc/N` and below
`Sa/N`. -/
theorem solve_quadratic_small_root_crook (Sa Pc N t : ℝ) (hSa : 0 < Sa) (hPc : 0 < Pc)
    (hN : 0 < N) (ht : 0 < t) :
    0 < solve_quadratic_small_root ((-1 / N) * (Sa + (1 + t) * Pc)) ((Sa * Pc) / (N * N)) ∧
    solve_quadratic_small_root ((-1 / N) * (Sa + (1 + t) * Pc)) ((Sa * Pc) / (N * N)) < Pc / N ∧
    solve_quadratic_small_root ((-1 / N) * (Sa + (1 + t) * Pc)) ((Sa * Pc) / (N * N)) < Sa / N := by
  have hNN : 0 < N * N := mul_pos hN hN
  refine ⟨solve_quadratic_small_root_pos _ _ ?_ ?_, solve_quadratic_small_root_lt _ _ _ ?_,
    solve_quadratic_small_root_lt _ _ _ ?_⟩
  · have h1 : 0 < Sa + (1 + t) * Pc := by positivity
    have h2 : -1 / N < 0 := div_neg_of_neg_of_pos (by norm_num) hN
    exact mul_neg_of_neg_of_pos h2 h1
  · positivity
  · rw [quad_at_critical Sa Pc N t hN]
    apply div_neg_of_neg_of_pos _ hNN
    have : 0 < t * Pc ^ 2 := by positivity
    linarith
  · rw [quad_at_yield Sa Pc N t hN]
    apply div_neg_of_neg_of_pos _ hNN
    have : 0 < t * Pc * Sa := by positivity
    linarith

/-- The circular crooked handler in exact real arithmetic: bounds on the allowable load. -/
theorem crooked_circular_allowable (D K a N L S E : ℝ) (hD : 0 < D) (hK : 0 < K)
    (ha : 0 < a) (hN : 0 < N) (hL : 0 < L) (hS : 0 < S) (hE : 0 < E) :
    0 < (handle_crooked_circular D K a N L S E).critical_load ∧
    0 < (handle_crooked_circular D K a N L S E).allowable_load ∧
    (handle_crooked_circular D K a N L S E).allowable_load <
      (handle_crooked_circular D K a N L S E).critical_load / N ∧
    (handle_crooked_circular D K a N L S E).allowable_load <
      S * (handle_crooked_circular D K a N L S E).area / N := by
  obtain ⟨Pc, regime, hPc, -, hform⟩ := crooked_circular_form D K a N L S E hD hK hL hS hE
  rw [hform]
  simp only
  have hp := PI_pos
  have hSa : 0 < S * ((PI * D * D) / 4) := mul_pos hS (by positivity)
  have ht : 0 < (a * (D / 2)) / ((D / 4) * (D / 4)) := by positivity
  obtain ⟨h1, h2, h3⟩ := solve_quadratic_small_root_crook _ Pc N _ hSa hPc hN ht
  exact ⟨hPc, h1, h2, h3⟩

/-- In exact real arithmetic, for positive input to the circular crooked or eccentric case
the critical load is positive and the value `P` of the solver's formula satisfies
`0 < P < critical_load/N` and `P < S·area/N`. -/
theorem real_circular_allowable (D K a N L S E e : ℝ)
    (hD : valid_positive D) (hK : valid_positive K) (ha : valid_positive a)
    (hN : valid_positive N) (hL : valid_positive L) (hS : valid_positive S)
    (hE : valid_positive E) (_he : valid_positive e) :
    (0 < (handle_crooked_circular D K a N L S E).critical_load ∧
     0 < (handle_crooked_circular D K a N L S E).allowable_load ∧
     (handle_crooked_circular D K a N L S E).allowable_load <
       (handle_crooked_circular D K a N L S E).critical_load / N ∧
     (handle_crooked_circular D K a N L S E).allowable_load <
       S * (handle_crooked_circular D K a N L S E).area / N) ∧
    (0 < (handle_eccentric_circular D K a N L S E e).critical_load ∧
     0 < (handle_eccentric_circular D K a N L S E e).allowable_load ∧
     (handle_eccentric_circular D K a N L S E e).allowable_load <
       (handle_eccentric_circular D K a N L S E e).critical_load / N ∧
     (handle_eccentric_circular D K a N L S E e).allowable_load <
       S * (handle_eccentric_circular D K a N L S E e).area / N) := by
  have h := crooked_circular_allowable D K a N L S E hD hK ha hN hL hS hE
  refine ⟨h, ?_⟩
  rw [eccentric_circular_eq_crooked D K a N L S E e]
  exact h

/-! ## Double precision: the arithmetic

Facts about the model: the leading-bit function, rounding a value that is already a double,
and the signs of rounded results.  Closed statements about concrete doubles are evaluated by
`decide`. -/

section DoublePrecision

set_option maxRecDepth 1000000

namespace F64

/-- A right shift by `j` bits is zero exactly below `2^j`. -/
theorem shiftRight_eq_zero_iff (n j : Nat) : n >>> j = 0 ↔ n < 2 ^ j := by
  rw [Nat.shiftRight_eq_div_pow, Nat.div_eq_zero_iff (by positivity)]

/-- The invariant of `log2Aux`: the leading bit lies in a window that halves at each step. -/
theorem log2Aux_spec (n : Nat) : ∀ (i k : Nat), 2 ^ k ≤ n → n < 2 ^ (k + 2 ^ i) →
    2 ^ (log2Aux n i k) ≤ n ∧ n < 2 ^ (log2Aux n i k + 1)
  | 0, k, h1, h2 => by simpa [log2Aux] using ⟨h1, h2⟩
  | i + 1, k, h1, h2 => by
    unfold log2Aux
    rw [Nat.one_shiftLeft]
    by_cases h : n >>> (k + 2 ^ i) = 0
    · rw [if_pos h]
      exact log2Aux_spec n i k h1 ((shiftRight_eq_zero_iff _ _).mp h)
    · rw [if_neg h]
      have h3 : 2 ^ (k + 2 ^ i) ≤ n := by
        by_contra hc
        exact h ((shiftRight_eq_zero_iff _ _).mpr (not_le.mp hc))
      refine log2Aux_spec n i (k + 2 ^ i) h3 ?_
      have : k + 2 ^ i + 2 ^ i = k + 2 ^ (i + 1) := by ring
      rw [this]; exact h2

/-- `log2 n` is the position of the leading bit of `n`. -/
theorem log2_spec (n : Nat) (h0 : 0 < n) (h : n < 2 ^ (2 ^ 12)) :
    2 ^ (log2 n) ≤ n ∧ n < 2 ^ (log2 n + 1) := by
  unfold log2
  refine log2Aux_spec n 12 0 (by simpa using h0) ?_
  rw [Nat.zero_add]
  exact h

/-- The position of the leading bit is unique. -/
theorem log2_unique (n a : Nat) (h0 : 0 < n) (h : n < 2 ^ (2 ^ 12)) (h1 : 2 ^ a ≤ n)
    (h2 : n < 2 ^ (a + 1)) : log2 n = a := by
  obtain ⟨h3, h4⟩ := log2_spec n h0 h
  have ha : a < log2 n + 1 := (Nat.pow_lt_pow_iff_right (by norm_num : 1 < 2)).mp (lt_of_le_of_lt h1 h4)
  have hb : log2 n < a + 1 := (Nat.pow_lt_pow_iff_right (by norm_num : 1 < 2)).mp (lt_of_le_of_lt h3 h2)
  omega


/-- Rounding is the identity on a double: `m·2^a / 2^b` with `(m, a - b)` the representation
of a double rounds to that double. -/
theorem round_of_canonical (t : Bool) (m a b : Nat) (e : Int) (he : e = (a : Int) - (b : Int))
    (hm : m ≠ 0) (hcan : Canonical m e) (hb : b ≤ 1100) :
    round t (m <<< a) (1 <<< b) = fin t m e := by
  have hm53 : m < 2 ^ 53 := by
    rcases hcan with ⟨h, -⟩ | ⟨-, h, -⟩
    · exact lt_trans h (by norm_num)
    · exact h
  have hm4096 : m < 2 ^ (2 ^ 12) := lt_trans hm53 (Nat.pow_lt_pow_right (by norm_num) (by norm_num))
  obtain ⟨hL1, hL2⟩ := log2_spec m (Nat.pos_of_ne_zero hm) hm4096
  have he971 : e ≤ 971 := by
    rcases hcan with ⟨-, h⟩ | ⟨-, -, -, h⟩
    · omega
    · exact h
  have hem : -1074 ≤ e := by
    rcases hcan with ⟨-, h⟩ | ⟨-, -, h, -⟩
    · omega
    · exact h
  have ha : a ≤ 2071 := by omega
  have hL52 : log2 m ≤ 52 := by
    have := (Nat.pow_lt_pow_iff_right (by norm_num : 1 < 2)).mp (lt_of_le_of_lt hL1 hm53)
    omega
  have hnpos : 0 < m <<< a := by
    rw [Nat.shiftLeft_eq]; positivity
  have hn4096 : m <<< a < 2 ^ (2 ^ 12) := by
    rw [Nat.shiftLeft_eq]
    calc m * 2 ^ a < 2 ^ 53 * 2 ^ a := by
          apply Nat.mul_lt_mul_of_pos_right hm53 (by positivity)
      _ = 2 ^ (53 + a) := by rw [pow_add]
      _ ≤ 2 ^ (2 ^ 12) := Nat.pow_le_pow_right (by norm_num) (by omega)
  have hlogn : log2 (m <<< a) = log2 m + a := by
    apply log2_unique _ _ hnpos hn4096
    · rw [Nat.shiftLeft_eq, pow_add]; exact Nat.mul_le_mul_right _ hL1
    · rw [Nat.shiftLeft_eq, show log2 m + a + 1 = (log2 m + 1) + a by ring, pow_add]
      exact Nat.mul_lt_mul_of_pos_right hL2 (by positivity)
  have hlogd : log2 (1 <<< b) = b := by
    apply log2_unique
    · rw [Nat.shiftLeft_eq]; positivity
    · rw [Nat.shiftLeft_eq, one_mul]; exact Nat.pow_lt_pow_right (by norm_num) (by omega)
    · rw [Nat.shiftLeft_eq, one_mul]
    · rw [Nat.shiftLeft_eq, one_mul]; exact Nat.pow_lt_pow_right (by norm_num) (by omega)
  have hexp : exponent (m <<< a) (1 <<< b) = (log2 m : Int) + e := by
    unfold exponent
    rw [hlogn, hlogd]
    have hk0 : ((log2 m + a : Nat) : Int) - (b : Int) = (log2 m : Int) + e := by
      push_cast; omega
    simp only [hk0]
    rw [if_pos]
    by_cases h0 : 0 ≤ (log2 m : Int) + e
    · rw [if_pos h0]
      have : b + ((log2 m : Int) + e).toNat = log2 m + a := by omega
      rw [Nat.shiftLeft_eq, Nat.shiftLeft_eq, Nat.shiftLeft_eq, one_mul, ← pow_add, this, pow_add]
      exact Nat.mul_le_mul_right _ hL1
    · rw [if_neg h0]
      have : b = log2 m + (a + (-((log2 m : Int) + e)).toNat) := by omega
      rw [Nat.shiftLeft_eq, Nat.shiftLeft_eq, Nat.shiftLeft_eq, one_mul, mul_assoc, ← pow_add]
      nth_rewrite 1 [this]
      rw [pow_add]
      exact Nat.mul_le_mul_right _ hL1
  have hmax : max ((log2 m : Int) + e - 52) (-1074) = e := by
    rcases hcan with ⟨h1, h2⟩ | ⟨h1, -, -, -⟩
    · have : log2 m < 52 :=
        (Nat.pow_lt_pow_iff_right (by norm_num : 1 < 2)).mp (lt_of_le_of_lt hL1 h1)
      omega
    · have : 52 < log2 m + 1 :=
        (Nat.pow_lt_pow_iff_right (by norm_num : 1 < 2)).mp (lt_of_le_of_lt h1 hL2)
      omega
  unfold round
  rw [if_neg (Nat.pos_iff_ne_zero.mp hnpos), hexp, hmax]
  unfold roundAt
  have hq53 : m ≠ 1 <<< 53 := by
    rw [Nat.one_shiftLeft]; exact hm53.ne
  by_cases hneg : e < 0
  · have hN : (m <<< a) <<< (-e).toNat = m * (1 <<< b) := by
      have : a + (-e).toNat = b := by omega
      rw [Nat.shiftLeft_eq, Nat.shiftLeft_eq, Nat.shiftLeft_eq, one_mul, mul_assoc, ← pow_add, this]
    have hD : 0 < 1 <<< b := by rw [Nat.one_shiftLeft]; positivity
    simp only [if_pos hneg, hN, Nat.mul_div_cancel _ hD, Nat.mul_mod_left, mul_zero,
      Nat.not_lt_zero, false_or, hD.ne, false_and, if_false, hq53, if_neg (not_lt.mpr he971)]
  · have hN : m <<< a = m * ((1 <<< b) <<< e.toNat) := by
      have : b + e.toNat = a := by omega
      rw [Nat.shiftLeft_eq, Nat.shiftLeft_eq, Nat.shiftLeft_eq, one_mul, ← pow_add, this]
    have hD : 0 < (1 <<< b) <<< e.toNat := by
      rw [Nat.shiftLeft_eq, Nat.one_shiftLeft]; positivity
    simp only [if_neg hneg, hN, Nat.mul_div_cancel _ hD, Nat.mul_mod_left, mul_zero,
      Nat.not_lt_zero, false_or, hD.ne, false_and, if_false, hq53, if_neg (not_lt.mpr he971)]


/-- `signed s n` is zero exactly when `n` is. -/
theorem signed_eq_zero (s : Bool) (n : Nat) : signed s n = 0 ↔ n = 0 := by
  unfold signed; cases s <;> simp

/-- `signed s n` is negative exactly when the sign bit is set, for `n ≠ 0`. -/
theorem signed_neg_iff (s : Bool) (n : Nat) (hn : n ≠ 0) : signed s n < 0 ↔ s = true := by
  unfold signed; cases s <;> simp; omega

/-- The absolute value of `signed s n` is `n`. -/
theorem signed_natAbs (s : Bool) (n : Nat) : (signed s n).natAbs = n := by
  unfold signed; cases s <;> simp

/-- Subtracting `+0` from a double returns it unchanged. -/
theorem sub_pos_zero (t : Bool) (m : Nat) (e : Int) (hcan : Canonical m e) :
    sub (fin t m e) zero = fin t m e := by
  have hem : -1074 ≤ e := by
    rcases hcan with ⟨-, h⟩ | ⟨-, -, h, -⟩
    · omega
    · exact h
  unfold sub zero neg add
  simp only [min_eq_right hem, sub_self, Int.toNat_zero, Nat.shiftLeft_zero]
  by_cases hm : m = 0
  · subst hm
    have he : e = -1074 := by
      rcases hcan with ⟨-, h⟩ | ⟨h, -⟩
      · exact h
      · norm_num at h
    subst he
    simp [signed]
  · obtain ⟨k, hk⟩ : ∃ k : Nat, (e - -1074).toNat = k := ⟨_, rfl⟩
    rw [hk]
    have hsh : m <<< k ≠ 0 := by
      rw [Nat.shiftLeft_eq]; positivity
    have h0 : signed (!false) 0 = 0 := by simp [signed]
    rw [h0, add_zero, if_neg (mt (signed_eq_zero t _).mp hsh), signed_natAbs]
    have hdec : decide (signed t (m <<< k) < 0) = t := by
      cases t
      · simp only [decide_eq_false_iff_not, signed_neg_iff _ _ hsh]; simp
      · simp only [decide_eq_true_eq, signed_neg_iff _ _ hsh]
    rw [hdec]
    unfold roundScaled
    rw [if_neg (by norm_num)]
    exact round_of_canonical t m k 1074 e (by omega) hm hcan (by norm_num)


/-- The square root of `0.0` is `0.0`. -/
theorem sqrt_pos_zero : sqrt zero = zero := by decide

/-- `isDouble` decides `Canonical`. -/
theorem isDouble_fin (s : Bool) (m : Nat) (e : Int) :
    isDouble (fin s m e) = true ↔ Canonical m e := by
  simp [isDouble, Canonical]

end F64

open F64

/-- When the computed discriminant is negative or `+0`, the square root contributes nothing
and the solver returns `-c1 / 2.0`. -/
theorem solve_quadratic_small_root_f64_of_disc_le (c1 c2 : F64)
    (hfin : c1.isFinite = true) (hdbl : c1.isDouble = true)
    (h : lt (sub (mul c1 c1) (mul four c2)) zero = true ∨ sub (mul c1 c1) (mul four c2) = zero) :
    solve_quadratic_small_root_f64 c1 c2 = div (neg c1) two := by
  cases c1 with
  | nan => simp [isFinite] at hfin
  | inf s => simp [isFinite] at hfin
  | fin t m e =>
    have hcan : Canonical m e := (isDouble_fin t m e).mp hdbl
    have hs : sub (neg (fin t m e)) zero = neg (fin t m e) := by
      show sub (fin (!t) m e) zero = fin (!t) m e
      exact F64.sub_pos_zero (!t) m e hcan
    unfold solve_quadratic_small_root_f64
    rcases h with h | h
    · simp only [h, if_true, sqrt_pos_zero, hs]
    · have hl : lt zero zero = false := by decide
      simp only [h, hl]
      rw [if_neg (by simp), sqrt_pos_zero, hs]

/-! ## Double precision: the model on known values -/

/-- The model reproduces known doubles: `PI`, `0.1`, `0.1 + 0.2 = 0.30000000000000004`,
`1/3`, `sqrt 2` and `sqrt 12`, the smallest subnormal, and the largest finite double. -/
theorem f64_known_values :
    PI_f64 = fin false 7074237752028440 (-51) ∧
    lit 1 (-1) = fin false 7205759403792794 (-56) ∧
    add (lit 1 (-1)) (lit 2 (-1)) = lit 30000000000000004 (-17) ∧
    div one (lit 3 0) = fin false 6004799503160661 (-54) ∧
    sqrt two = lit 14142135623730951 (-16) ∧
    sqrt twelve = lit 34641016151377544 (-16) ∧
    lit 5 (-324) = fin false 1 (-1074) ∧
    lit 17976931348623157 292 = fin false 9007199254740991 971 := by
  refine ⟨by decide, by decide, by decide, by decide, by decide, by decide, by decide,
    by decide⟩

/-- The model reproduces overflow, underflow and the invalid operations: the largest double
doubled is `+inf`, the smallest subnormal halved and `1e-200·1e-200` are `0.0`, `1/0` is
`+inf`, `0/0`, `inf - inf` and the square root of `-1` are NaN, and every comparison with
NaN is false. -/
theorem f64_exceptional_values :
    mul (lit 17976931348623157 292) two = inf false ∧
    div (lit 5 (-324)) two = zero ∧
    mul (lit 1 (-200)) (lit 1 (-200)) = zero ∧
    div one zero = inf false ∧
    div zero zero = nan ∧
    sub (inf false) (inf false) = nan ∧
    sqrt (neg one) = nan ∧
    lt nan zero = false ∧ lt zero nan = false := by
  refine ⟨by decide, by decide, by decide, by decide, by decide, by decide, by decide,
    by decide, by decide⟩

/-! ## The solver in double precision -/

/-- C1: in double precision `solve_quadratic_small_root` does not return the smaller root when
`-c1` and the square root of the discriminant cancel.  For `c1 = -1e9`, `c2 = 1`
(`c1² = 1e18 ≥ 4 = 4·c2`) it returns `0.0`, at which `x² + c1·x + c2` is `1`; for
`c1 = -1e5`, `c2 = 1` it returns `1.0000003385357559e-05`, at which `x² + c1·x + c2` is
below `-3·10⁻⁷`; for the coefficients the circular crooked handler passes at
`D=2, K=1, a=1e8, N=1, L=50, S=36000, E=3e7` it returns `0.0` although `c2 > 0`. -/
theorem solve_quadratic_small_root_f64_cancellation :
    ((ofDecimal true 1 9).toRat = -1000000000 ∧ (lit 1 0).toRat = 1 ∧
      solve_quadratic_small_root_f64 (ofDecimal true 1 9) (lit 1 0) = zero ∧
      zero.toRat ^ 2 + (ofDecimal true 1 9).toRat * zero.toRat + (lit 1 0).toRat = 1) ∧
    ((ofDecimal true 1 5).toRat = -100000 ∧
      solve_quadratic_small_root_f64 (ofDecimal true 1 5) (lit 1 0) =
        lit 10000003385357559 (-21) ∧
      (lit 10000003385357559 (-21)).toRat ^ 2 +
        (ofDecimal true 1 5).toRat * (lit 10000003385357559 (-21)).toRat + (lit 1 0).toRat
          < -3 / 10000000) ∧
    (∃ r : CrookedResultF64,
      r = handle_crooked_circular_f64 (lit 2 0) (lit 1 0) (lit 1 8) (lit 1 0) (lit 50 0)
        (lit 36000 0) (lit 3 7) ∧
      lt r.quad_c1 zero = true ∧ lt zero r.quad_c2 = true ∧
      lt zero (sub (mul r.quad_c1 r.quad_c1) (mul four r.quad_c2)) = true ∧
      r.allowable_load = zero) := by
  have h1 : ofDecimal true 1 9 = fin true 8388608000000000 (-23) := by decide
  have h2 : lit 1 0 = fin false 4503599627370496 (-52) := by decide
  have h3 : ofDecimal true 1 5 = fin true 6871947673600000 (-36) := by decide
  have h4 : lit 10000003385357559 (-21) = fin false 5902960101949440 (-69) := by decide
  refine ⟨⟨?_, ?_, by decide, ?_⟩, ⟨?_, by decide, ?_⟩,
    _, rfl, by decide, by decide, by decide, by decide⟩
  · rw [h1]; norm_num [toRat, signed]
  · rw [h2]; norm_num [toRat, signed]
  · rw [h1, h2]; norm_num [toRat, signed, zero]
  · rw [h3]; norm_num [toRat, signed]
  · rw [h2, h3, h4]; norm_num [toRat, signed]

/-- C7 (as amended): for every finite double `c1` and every `c2` for which the discriminant
`c1*c1 - 4.0*c2`, as computed, is negative or `+0`, `solve_quadratic_small_root` returns
exactly `-c1 / 2.0`: a negative discriminant is clamped to `0.0` and the square root of
`0.0` contributes nothing. -/
theorem solve_quadratic_small_root_f64_clamped (c1 c2 : F64)
    (hfin : c1.isFinite = true) (hdbl : c1.isDouble = true)
    (h : lt (sub (mul c1 c1) (mul four c2)) zero = true ∨ sub (mul c1 c1) (mul four c2) = zero) :
    solve_quadratic_small_root_f64 c1 c2 = div (neg c1) two :=
  solve_quadratic_small_root_f64_of_disc_le c1 c2 hfin hdbl h

/-- The clamp at `c1 = 2`, `c2 = 5` (computed discriminant `-16`) and the zero discriminant
at `c1 = 2`, `c2 = 1`: the result is `-1.0` both times. -/
theorem solve_quadratic_small_root_f64_clamped_witness :
    solve_quadratic_small_root_f64 (lit 2 0) (lit 5 0) = div (neg (lit 2 0)) two ∧
    solve_quadratic_small_root_f64 (lit 2 0) (lit 1 0) = div (neg (lit 2 0)) two ∧
    div (neg (lit 2 0)) two = ofDecimal true 1 0 :=
  ⟨solve_quadratic_small_root_f64_clamped (lit 2 0) (lit 5 0) (by decide) (by decide)
      (Or.inl (by decide)),
   solve_quadratic_small_root_f64_clamped (lit 2 0) (lit 1 0) (by decide) (by decide)
      (Or.inr (by decide)),
   by decide⟩

/-- C7 (as stated) fails: `c1 = 1.5e154` and `c2 = 1e308` are finite doubles with
`c1² ≤ 4·c2`, but `c1*c1` and `4.0*c2` both overflow, the computed discriminant is NaN, the
test `disc < 0.0` is false and the function returns NaN, not `-c1 / 2.0`. -/
theorem solve_quadratic_small_root_f64_overflow :
    (lit 15 153).isFinite = true ∧ (lit 1 308).isFinite = true ∧
    (lit 15 153).toRat ^ 2 ≤ 4 * (lit 1 308).toRat ∧
    mul (lit 15 153) (lit 15 153) = inf false ∧ mul four (lit 1 308) = inf false ∧
    sub (mul (lit 15 153) (lit 15 153)) (mul four (lit 1 308)) = nan ∧
    solve_quadratic_small_root_f64 (lit 15 153) (lit 1 308) = nan ∧
    solve_quadratic_small_root_f64 (lit 15 153) (lit 1 308) ≠ div (neg (lit 15 153)) two := by
  have h1 : lit 15 153 = fin false 5038407080675317 460 := by decide
  have h2 : lit 1 308 = fin false 5010420900022432 971 := by decide
  refine ⟨by decide, by decide, ?_, by decide, by decide, by decide, by decide, by decide⟩
  rw [h1, h2]
  have e1 : (2 : ℚ) ^ (971 : ℤ) = ((2 : ℚ) ^ (460 : ℤ)) ^ 2 * 2 ^ (51 : ℤ) := by
    rw [← zpow_natCast, ← zpow_mul, ← zpow_add₀ (by norm_num)]; norm_num
  have hpos : (0 : ℚ) < (2 : ℚ) ^ (460 : ℤ) := by positivity
  simp only [toRat, signed, e1]
  generalize (2 : ℚ) ^ (460 : ℤ) = x at hpos
  norm_num
  nlinarith [mul_pos hpos hpos]

/-! ## The regime boundary in double precision -/

/-- C5: at the regime boundary the two formulas need not agree.  For `E = 3e7`, `S = 36000`
and `A = PI`, all valid, with the slenderness ratio equal to the column constant
`sqrt(2·PI·PI·E/S)` as the handlers compute it, `euler_load_from_sr` and `johnson_load`
return different doubles (`56548.667764616286` and `56548.66776461629`). -/
theorem euler_ne_johnson_at_column_constant_f64 :
    ∃ E S A : F64, valid_positive_f64 E = true ∧ valid_positive_f64 S = true ∧
      valid_positive_f64 A = true ∧
      euler_load_from_sr_f64 E A (sqrt (div (mul (mul (mul two PI_f64) PI_f64) E) S)) ≠
        johnson_load_f64 A S (sqrt (div (mul (mul (mul two PI_f64) PI_f64) E) S)) E :=
  ⟨lit 3 7, lit 36000 0, PI_f64, by decide, by decide, by decide, by decide⟩

/-! ## Handlers in double precision -/

/-- What the circular crooked handler computes, in either regime. -/
theorem crooked_circular_f64_structure (D K a N L S E : F64) :
    (handle_crooked_circular_f64 D K a N L S E).radius_gyration = div D four ∧
    (handle_crooked_circular_f64 D K a N L S E).area = div (mul (mul PI_f64 D) D) four ∧
    (handle_crooked_circular_f64 D K a N L S E).quad_c1 =
      mul (div (neg one) N)
        (add (mul S (handle_crooked_circular_f64 D K a N L S E).area)
          (mul (add one (div (mul a (div D two))
              (mul (handle_crooked_circular_f64 D K a N L S E).radius_gyration
                (handle_crooked_circular_f64 D K a N L S E).radius_gyration)))
            (handle_crooked_circular_f64 D K a N L S E).critical_load)) ∧
    (handle_crooked_circular_f64 D K a N L S E).quad_c2 =
      div (mul (mul S (handle_crooked_circular_f64 D K a N L S E).area)
          (handle_crooked_circular_f64 D K a N L S E).critical_load) (mul N N) ∧
    (handle_crooked_circular_f64 D K a N L S E).allowable_load =
      solve_quadratic_small_root_f64 (handle_crooked_circular_f64 D K a N L S E).quad_c1
        (handle_crooked_circular_f64 D K a N L S E).quad_c2 := by
  by_cases h : lt (sqrt (div (mul (mul (mul two PI_f64) PI_f64) E) S))
      (div (mul K L) (div D four)) = true
  · simp only [handle_crooked_circular_f64, if_pos h, and_self]
  · simp only [handle_crooked_circular_f64, if_neg h, and_self]

/-- What the rectangular crooked handler computes, in either regime. -/
theorem crooked_rectangular_f64_structure (B H L N K S E : F64) :
    (handle_crooked_rectangular_f64 B H L N K S E).radius_gyration = div B (sqrt twelve) ∧
    (handle_crooked_rectangular_f64 B H L N K S E).area = mul B H ∧
    (handle_crooked_rectangular_f64 B H L N K S E).quad_c1 =
      mul (div (neg one) N)
        (add (mul S (handle_crooked_rectangular_f64 B H L N K S E).area)
          (mul (add one zero) (handle_crooked_rectangular_f64 B H L N K S E).critical_load)) ∧
    (handle_crooked_rectangular_f64 B H L N K S E).quad_c2 =
      div (mul (mul S (handle_crooked_rectangular_f64 B H L N K S E).area)
          (handle_crooked_rectangular_f64 B H L N K S E).critical_load) (mul N N) ∧
    (handle_crooked_rectangular_f64 B H L N K S E).allowable_load =
      solve_quadratic_small_root_f64 (handle_crooked_rectangular_f64 B H L N K S E).quad_c1
        (handle_crooked_rectangular_f64 B H L N K S E).quad_c2 := by
  by_cases h : lt (sqrt (div (mul (mul (mul two PI_f64) PI_f64) E) S))
      (div (mul K L) (div B (sqrt twelve))) = true
  · simp only [handle_crooked_rectangular_f64, if_pos h, and_self]
  · simp only [handle_crooked_rectangular_f64, if_neg h, and_self]

/-- In double precision too the circular eccentric handler reports the loads of the circular
crooked handler. -/
theorem eccentric_circular_f64_loads (D K a N L S E e : F64) :
    (handle_eccentric_circular_f64 D K a N L S E e).critical_load =
      (handle_crooked_circular_f64 D K a N L S E).critical_load ∧
    (handle_eccentric_circular_f64 D K a N L S E e).area =
      (handle_crooked_circular_f64 D K a N L S E).area ∧
    (handle_eccentric_circular_f64 D K a N L S E e).quad_c1 =
      (handle_crooked_circular_f64 D K a N L S E).quad_c1 ∧
    (handle_eccentric_circular_f64 D K a N L S E e).quad_c2 =
      (handle_crooked_circular_f64 D K a N L S E).quad_c2 ∧
    (handle_eccentric_circular_f64 D K a N L S E e).allowable_load =
      (handle_crooked_circular_f64 D K a N L S E).allowable_load := by
  by_cases h : lt (sqrt (div (mul (mul (mul two PI_f64) PI_f64) E) S))
      (div (mul K L) (div D four)) = true
  · simp only [handle_eccentric_circular_f64, handle_crooked_circular_f64, if_pos h, and_self]
  · simp only [handle_eccentric_circular_f64, handle_crooked_circular_f64, if_neg h, and_self]

/-- In double precision too the rectangular eccentric handler reports the loads of the
rectangular crooked handler. -/
theorem eccentric_rectangular_f64_loads (B H L N K S E e : F64) :
    (handle_eccentric_rectangular_f64 B H L N K S E e).critical_load =
      (handle_crooked_rectangular_f64 B H L N K S E).critical_load ∧
    (handle_eccentric_rectangular_f64 B H L N K S E e).area =
      (handle_crooked_rectangular_f64 B H L N K S E).area ∧
    (handle_eccentric_rectangular_f64 B H L N K S E e).quad_c1 =
      (handle_crooked_rectangular_f64 B H L N K S E).quad_c1 ∧
    (handle_eccentric_rectangular_f64 B H L N K S E e).quad_c2 =
      (handle_crooked_rectangular_f64 B H L N K S E).quad_c2 ∧
    (handle_eccentric_rectangular_f64 B H L N K S E e).allowable_load =
      (handle_crooked_rectangular_f64 B H L N K S E).allowable_load := by
  by_cases h : lt (sqrt (div (mul (mul (mul two PI_f64) PI_f64) E) S))
      (div (mul K L) (div B (sqrt twelve))) = true
  · simp only [handle_eccentric_rectangular_f64, handle_crooked_rectangular_f64, if_pos h,
      and_self]
  · simp only [handle_eccentric_rectangular_f64, handle_crooked_rectangular_f64, if_neg h,
      and_self]

/-- Whenever the clamp fires the solver returns `(-c1 - 0.0) / 2.0`. -/
theorem solve_quadratic_small_root_f64_of_clamp (c1 c2 : F64)
    (h : lt (sub (mul c1 c1) (mul four c2)) zero = true) :
    solve_quadratic_small_root_f64 c1 c2 = div (sub (neg c1) zero) two := by
  unfold solve_quadratic_small_root_f64
  simp only [h, if_true, F64.sqrt_pos_zero]

/-- A double passes `valid_positive` exactly when it is finite, with a clear sign bit and a
non-zero significand. -/
theorem valid_positive_f64_iff (x : F64) :
    valid_positive_f64 x = true ↔ ∃ m e, x = fin false m e ∧ m ≠ 0 := by
  cases x with
  | nan => simp [valid_positive_f64, isFinite]
  | inf s => simp [valid_positive_f64, isFinite]
  | fin s m e =>
    have hpos : ∀ k : Nat, (0 : Int) < ((m <<< k : Nat) : Int) ↔ m ≠ 0 := by
      intro k
      rw [Nat.shiftLeft_eq]
      constructor
      · intro h hm; subst hm; simp at h
      · intro hm; positivity
    cases s
    · simp [valid_positive_f64, isFinite, lt, zero, signed, hpos]
    · simp [valid_positive_f64, isFinite, lt, zero, signed]

/-- A double that passes `valid_positive` is finite and has a positive value. -/
theorem valid_positive_f64_toRat (x : F64) (h : valid_positive_f64 x = true) :
    x.isFinite = true ∧ 0 < x.toRat := by
  obtain ⟨m, e, rfl, hm⟩ := (valid_positive_f64_iff x).mp h
  refine ⟨rfl, ?_⟩
  have : (0 : ℚ) < (m : ℚ) := by exact_mod_cast Nat.pos_of_ne_zero hm
  simp only [toRat, signed]
  positivity

/-- A rounded result is an infinity or a finite double of the sign asked for. -/
theorem F64.roundAt_sign (s : Bool) (n d : Nat) (e : Int) :
    F64.roundAt s n d e = inf s ∨ ∃ m k, F64.roundAt s n d e = fin s m k := by
  unfold F64.roundAt
  dsimp only
  split_ifs <;> simp

/-- A rounded result is an infinity or a finite double of the sign asked for. -/
theorem F64.round_sign (s : Bool) (n d : Nat) :
    F64.round s n d = inf s ∨ ∃ m e, F64.round s n d = fin s m e := by
  unfold F64.round
  split
  · right; exact ⟨_, _, rfl⟩
  · exact F64.roundAt_sign _ _ _ _

/-- A rounded result is an infinity or a finite double of the sign asked for. -/
theorem F64.roundScaled_sign (s : Bool) (n : Nat) (e : Int) :
    F64.roundScaled s n e = inf s ∨ ∃ m k, F64.roundScaled s n e = fin s m k := by
  unfold F64.roundScaled
  split_ifs <;> exact F64.round_sign _ _ _

/-- The argument of the column constant's square root is `+inf` or a finite double with a
clear sign bit: it is not NaN and not negative. -/
theorem column_constant_arg_f64 (E S : F64) (hE : valid_positive_f64 E = true)
    (hS : valid_positive_f64 S = true) :
    div (mul (mul (mul two PI_f64) PI_f64) E) S = inf false ∨
      ∃ m e, div (mul (mul (mul two PI_f64) PI_f64) E) S = fin false m e := by
  obtain ⟨m, e, rfl, hm⟩ := (valid_positive_f64_iff E).mp hE
  obtain ⟨n, f, rfl, hn⟩ := (valid_positive_f64_iff S).mp hS
  have hc : mul (mul two PI_f64) PI_f64 = fin false 5556093337880030 (-48) := by decide
  rw [hc]
  have hmul : mul (fin false 5556093337880030 (-48)) (fin false m e)
      = roundScaled false (5556093337880030 * m) (-48 + e) := rfl
  rw [hmul]
  rcases F64.roundScaled_sign false (5556093337880030 * m) (-48 + e) with h | ⟨q, k, h⟩
  · rw [h]; left; rfl
  · rw [h]
    unfold div
    simp only [hn, if_false, Bool.xor_false]
    split_ifs <;> exact F64.round_sign _ _ _

/-! ## Totality in double precision -/

/-- C8 (as amended): on input that passes `valid_positive` the divisors `S` and
`design_factor` are finite and non-zero, and no square root of a negative number is
reachable: the argument `2·PI·PI·E/S` of the column constant is neither NaN nor negative, and
the clamped discriminant is never negative. -/
theorem sqrt_arguments_and_input_divisors_f64 (S N E : F64)
    (hS : valid_positive_f64 S = true) (hN : valid_positive_f64 N = true)
    (hE : valid_positive_f64 E = true) :
    (S.isFinite = true ∧ 0 < S.toRat) ∧ (N.isFinite = true ∧ 0 < N.toRat) ∧
    (div (mul (mul (mul two PI_f64) PI_f64) E) S ≠ nan ∧
      lt (div (mul (mul (mul two PI_f64) PI_f64) E) S) zero = false) ∧
    (∀ c1 c2 : F64,
      lt (if lt (sub (mul c1 c1) (mul four c2)) zero then zero
          else sub (mul c1 c1) (mul four c2)) zero = false) := by
  refine ⟨valid_positive_f64_toRat S hS, valid_positive_f64_toRat N hN, ?_, ?_⟩
  · rcases column_constant_arg_f64 E S hE hS with h | ⟨m, e, h⟩
    · rw [h]; exact ⟨by simp, rfl⟩
    · rw [h]
      refine ⟨by simp, ?_⟩
      simp only [lt, zero, signed, Bool.false_eq_true, if_false, Nat.zero_shiftLeft,
        Nat.cast_zero, decide_eq_false_iff_not, not_lt]
      exact Int.natCast_nonneg _
  · intro c1 c2
    by_cases h : lt (sub (mul c1 c1) (mul four c2)) zero = true
    · rw [if_pos h]; decide
    · rw [if_neg h]; exact Bool.eq_false_iff.mpr h

/-- The guarantees of C8 at `S = 36000`, `N = 3`, `E = 3e7`, all valid. -/
theorem sqrt_arguments_and_input_divisors_f64_witness :
    0 < (lit 36000 0).toRat ∧ 0 < (lit 3 0).toRat ∧
    lt (div (mul (mul (mul two PI_f64) PI_f64) (lit 3 7)) (lit 36000 0)) zero = false :=
  have h := sqrt_arguments_and_input_divisors_f64 (lit 36000 0) (lit 3 0) (lit 3 7)
    (by decide) (by decide) (by decide)
  ⟨h.1.2, h.2.1.2, h.2.2.1.2⟩

/-- C8 (as stated) fails: `design_factor = 1e-200` passes `valid_positive`, but
`design_factor * design_factor` underflows to `0.0`, so with `D=2, K=1, a=0.125, L=100,
S=36000, E=3e7` the circular crooked handler divides by zero: `quad_c2` is `+inf` and the
allowable load NaN.  A diameter of `1e-200` likewise gives `area = 0.0` and
`radius_gyration * radius_gyration = 0.0`, and `K = L = 1e-100` with `D = 2` give a
slenderness ratio whose square is `0.0`. -/
theorem division_by_zero_reachable_f64 :
    (valid_positive_f64 (lit 1 (-200)) = true ∧ valid_positive_f64 (lit 1 (-100)) = true) ∧
    mul (lit 1 (-200)) (lit 1 (-200)) = zero ∧
    (∃ r : CrookedResultF64,
      r = handle_crooked_circular_f64 (lit 2 0) (lit 1 0) (lit 125 (-3)) (lit 1 (-200))
        (lit 100 0) (lit 36000 0) (lit 3 7) ∧
      r.quad_c2 = inf false ∧ r.allowable_load = nan) ∧
    div (mul (mul PI_f64 (lit 1 (-200))) (lit 1 (-200))) four = zero ∧
    mul (div (lit 1 (-200)) four) (div (lit 1 (-200)) four) = zero ∧
    (∃ sr : F64, sr = div (mul (lit 1 (-100)) (lit 1 (-100))) (div (lit 2 0) four) ∧
      mul sr sr = zero) :=
  ⟨⟨by decide, by decide⟩, by decide, ⟨_, rfl, by decide, by decide⟩, by decide, by decide,
    ⟨_, rfl, by decide⟩⟩

/-! ## The circular crooked case in double precision -/

/-- C4 (as amended): for every valid input to the crooked circular case, in either regime,
the handler computes `C1 = (-1/N)·(S·area + (1 + a·(D/2)/radius_gyration²)·critical_load)`
and `C2 = S·area·critical_load/N²` in double precision and reports
`solve_quadratic_small_root(C1, C2)`; whenever the discriminant it computes is negative the
clamp fires and the allowable load is `(-C1 - 0.0)/2.0`.  The clamp does fire on valid input:
at `D=2, K=1, a=1e-20, N=2, L=0.001, S=36000, E=3e7` the computed discriminant is negative
and the allowable load is `-C1/2.0`. -/
theorem crooked_circular_f64_clamp_fires (D K a N L S E : F64)
    (_hD : valid_positive_f64 D = true) (_hK : valid_positive_f64 K = true)
    (_ha : valid_positive_f64 a = true) (_hN : valid_positive_f64 N = true)
    (_hL : valid_positive_f64 L = true) (_hS : valid_positive_f64 S = true)
    (_hE : valid_positive_f64 E = true) :
    ((handle_crooked_circular_f64 D K a N L S E).quad_c1 =
        mul (div (neg one) N)
          (add (mul S (handle_crooked_circular_f64 D K a N L S E).area)
            (mul (add one (div (mul a (div D two))
                (mul (handle_crooked_circular_f64 D K a N L S E).radius_gyration
                  (handle_crooked_circular_f64 D K a N L S E).radius_gyration)))
              (handle_crooked_circular_f64 D K a N L S E).critical_load)) ∧
      (handle_crooked_circular_f64 D K a N L S E).quad_c2 =
        div (mul (mul S (handle_crooked_circular_f64 D K a N L S E).area)
            (handle_crooked_circular_f64 D K a N L S E).critical_load) (mul N N) ∧
      (handle_crooked_circular_f64 D K a N L S E).allowable_load =
        solve_quadratic_small_root_f64 (handle_crooked_circular_f64 D K a N L S E).quad_c1
          (handle_crooked_circular_f64 D K a N L S E).quad_c2) ∧
    (lt (sub
          (mul (handle_crooked_circular_f64 D K a N L S E).quad_c1
            (handle_crooked_circular_f64 D K a N L S E).quad_c1)
          (mul four (handle_crooked_circular_f64 D K a N L S E).quad_c2)) zero = true →
      (handle_crooked_circular_f64 D K a N L S E).allowable_load =
        div (sub (neg (handle_crooked_circular_f64 D K a N L S E).quad_c1) zero) two) ∧
    (∃ r : CrookedResultF64,
      r = handle_crooked_circular_f64 (lit 2 0) (lit 1 0) (lit 1 (-20)) (lit 2 0) (lit 1 (-3))
        (lit 36000 0) (lit 3 7) ∧
      lt (sub (mul r.quad_c1 r.quad_c1) (mul four r.quad_c2)) zero = true ∧
      r.allowable_load = div (neg r.quad_c1) two) := by
  obtain ⟨-, -, h1, h2, h3⟩ := crooked_circular_f64_structure D K a N L S E
  refine ⟨⟨h1, h2, h3⟩, ?_, _, rfl, by decide, by decide⟩
  intro h
  rw [h3]
  exact solve_quadratic_small_root_f64_of_clamp _ _ h

/-- The statement of C4 at `D=2, K=1, a=0.125, N=3, L=100, S=36000, E=3e7`, all valid: the
allowable load is what the solver returns for the reported coefficients. -/
theorem crooked_circular_f64_clamp_fires_witness :
    ∃ r : CrookedResultF64,
      r = handle_crooked_circular_f64 (lit 2 0) (lit 1 0) (lit 125 (-3)) (lit 3 0) (lit 100 0)
        (lit 36000 0) (lit 3 7) ∧
      r.allowable_load = solve_quadratic_small_root_f64 r.quad_c1 r.quad_c2 :=
  ⟨_, rfl, (crooked_circular_f64_clamp_fires (lit 2 0) (lit 1 0) (lit 125 (-3)) (lit 3 0)
    (lit 100 0) (lit 36000 0) (lit 3 7) (by decide) (by decide) (by decide) (by decide)
    (by decide) (by decide) (by decide)).1.2.2⟩

/-- C4 (as stated) fails: at the valid input `D=2, K=1, a=1e-20, N=3, L=0.001, S=36000,
E=3e7` the discriminant the handler computes from its coefficients is negative
(`-9.5367431640625e-07`), so the clamp fires; the exact value of `C1² − 4·C2` for the
reported doubles is negative too. -/
theorem crooked_circular_f64_negative_discriminant :
    (valid_positive_f64 (lit 2 0) = true ∧ valid_positive_f64 (lit 1 0) = true ∧
      valid_positive_f64 (lit 1 (-20)) = true ∧ valid_positive_f64 (lit 3 0) = true ∧
      valid_positive_f64 (lit 1 (-3)) = true ∧ valid_positive_f64 (lit 36000 0) = true ∧
      valid_positive_f64 (lit 3 7) = true) ∧
    (∃ r : CrookedResultF64,
      r = handle_crooked_circular_f64 (lit 2 0) (lit 1 0) (lit 1 (-20)) (lit 3 0) (lit 1 (-3))
        (lit 36000 0) (lit 3 7) ∧
      sub (mul r.quad_c1 r.quad_c1) (mul four r.quad_c2) = ofDecimal true 95367431640625 (-20) ∧
      lt (sub (mul r.quad_c1 r.quad_c1) (mul four r.quad_c2)) zero = true ∧
      r.quad_c1.toRat ^ 2 - 4 * r.quad_c2.toRat < 0) := by
  have h1 : (handle_crooked_circular_f64 (lit 2 0) (lit 1 0) (lit 1 (-20)) (lit 3 0)
      (lit 1 (-3)) (lit 36000 0) (lit 3 7)).quad_c1 = fin true 5181326478221468 (-36) := by
    decide
  have h2 : (handle_crooked_circular_f64 (lit 2 0) (lit 1 0) (lit 1 (-20)) (lit 3 0)
      (lit 1 (-3)) (lit 36000 0) (lit 3 7)).quad_c2 = fin false 5961041454653789 (-22) := by
    decide
  refine ⟨⟨by decide, by decide, by decide, by decide, by decide, by decide, by decide⟩,
    _, rfl, by decide, by decide, ?_⟩
  rw [h1, h2]
  norm_num [toRat, signed]

/-! ## The rectangular cases in double precision -/

/-- C9 (as amended): for every valid input to the rectangular crooked or eccentric case, in
either regime, the handler computes `C1 = (-1/N)·(S·area + (1.0 + 0.0)·critical_load)` and
`C2 = S·area·critical_load/N²` in double precision and reports
`solve_quadratic_small_root(C1, C2)`, the eccentric handler the same values.  At
`B=2, H=4, L=100, N=3, K=1, S=36000, E=3e7` the critical load is below `S·area` and the
allowable load `26318.945069571637` is the double next above
`critical_load/N = 26318.945069571633`: the two agree up to rounding, not exactly. -/
theorem rectangular_f64_allowable (B H L N K S E e : F64)
    (_hB : valid_positive_f64 B = true) (_hH : valid_positive_f64 H = true)
    (_hL : valid_positive_f64 L = true) (_hN : valid_positive_f64 N = true)
    (_hK : valid_positive_f64 K = true) (_hS : valid_positive_f64 S = true)
    (_hE : valid_positive_f64 E = true) (_he : valid_positive_f64 e = true) :
    ((handle_crooked_rectangular_f64 B H L N K S E).quad_c1 =
        mul (div (neg one) N)
          (add (mul S (handle_crooked_rectangular_f64 B H L N K S E).area)
            (mul (add one zero) (handle_crooked_rectangular_f64 B H L N K S E).critical_load)) ∧
      (handle_crooked_rectangular_f64 B H L N K S E).quad_c2 =
        div (mul (mul S (handle_crooked_rectangular_f64 B H L N K S E).area)
            (handle_crooked_rectangular_f64 B H L N K S E).critical_load) (mul N N) ∧
      (handle_crooked_rectangular_f64 B H L N K S E).allowable_load =
        solve_quadratic_small_root_f64 (handle_crooked_rectangular_f64 B H L N K S E).quad_c1
          (handle_crooked_rectangular_f64 B H L N K S E).quad_c2) ∧
    ((handle_eccentric_rectangular_f64 B H L N K S E e).critical_load =
        (handle_crooked_rectangular_f64 B H L N K S E).critical_load ∧
      (handle_eccentric_rectangular_f64 B H L N K S E e).quad_c1 =
        (handle_crooked_rectangular_f64 B H L N K S E).quad_c1 ∧
      (handle_eccentric_rectangular_f64 B H L N K S E e).quad_c2 =
        (handle_crooked_rectangular_f64 B H L N K S E).quad_c2 ∧
      (handle_eccentric_rectangular_f64 B H L N K S E e).allowable_load =
        (handle_crooked_rectangular_f64 B H L N K S E).allowable_load) ∧
    (∃ r : CrookedResultF64,
      r = handle_crooked_rectangular_f64 (lit 2 0) (lit 4 0) (lit 100 0) (lit 3 0) (lit 1 0)
        (lit 36000 0) (lit 3 7) ∧
      lt r.critical_load (mul (lit 36000 0) r.area) = true ∧
      r.allowable_load = lit 26318945069571637 (-12) ∧
      div r.critical_load (lit 3 0) = lit 26318945069571633 (-12)) := by
  obtain ⟨-, -, h1, h2, h3⟩ := crooked_rectangular_f64_structure B H L N K S E
  obtain ⟨g1, -, g2, g3, g4⟩ := eccentric_rectangular_f64_loads B H L N K S E e
  exact ⟨⟨h1, h2, h3⟩, ⟨g1, g2, g3, g4⟩, _, rfl, by decide, by decide, by decide⟩

/-- The statement of C9 at `B=2, H=4, L=10, N=3, K=1, S=36000, E=3e7, e=0.5`, all valid: the
eccentric handler reports the allowable load of the crooked handler, which is what the solver
returns for the reported coefficients. -/
theorem rectangular_f64_allowable_witness :
    ∃ r : CrookedResultF64,
      r = handle_crooked_rectangular_f64 (lit 2 0) (lit 4 0) (lit 10 0) (lit 3 0) (lit 1 0)
        (lit 36000 0) (lit 3 7) ∧
      r.allowable_load = solve_quadratic_small_root_f64 r.quad_c1 r.quad_c2 ∧
      (handle_eccentric_rectangular_f64 (lit 2 0) (lit 4 0) (lit 10 0) (lit 3 0) (lit 1 0)
        (lit 36000 0) (lit 3 7) (lit 5 (-1))).allowable_load = r.allowable_load :=
  have h := rectangular_f64_allowable (lit 2 0) (lit 4 0) (lit 10 0) (lit 3 0) (lit 1 0)
    (lit 36000 0) (lit 3 7) (lit 5 (-1)) (by decide) (by decide) (by decide) (by decide)
    (by decide) (by decide) (by decide) (by decide)
  ⟨_, rfl, h.1.2.2, h.2.1.2.2.2⟩

/-- C9 (as stated) fails: at `B=2, H=4, L=100, N=3, K=1, S=36000, E=3e7` the allowable load
differs from `critical_load/N`; at `L=0.01` the clamp fires and the allowable load
`95999.99956229248` exceeds `critical_load/N = 95999.99912458497`; at `L=1e-7` the critical
load equals `S·area = 288000`, so it is not strictly below it. -/
theorem rectangular_f64_allowable_not_exact :
    (valid_positive_f64 (lit 2 0) = true ∧ valid_positive_f64 (lit 4 0) = true ∧
      valid_positive_f64 (lit 100 0) = true ∧ valid_positive_f64 (lit 1 (-2)) = true ∧
      valid_positive_f64 (lit 1 (-7)) = true ∧ valid_positive_f64 (lit 3 0) = true ∧
      valid_positive_f64 (lit 1 0) = true ∧ valid_positive_f64 (lit 36000 0) = true ∧
      valid_positive_f64 (lit 3 7) = true) ∧
    (∃ r : CrookedResultF64,
      r = handle_crooked_rectangular_f64 (lit 2 0) (lit 4 0) (lit 100 0) (lit 3 0) (lit 1 0)
        (lit 36000 0) (lit 3 7) ∧
      r.allowable_load ≠ div r.critical_load (lit 3 0)) ∧
    (∃ r : CrookedResultF64,
      r = handle_crooked_rectangular_f64 (lit 2 0) (lit 4 0) (lit 1 (-2)) (lit 3 0) (lit 1 0)
        (lit 36000 0) (lit 3 7) ∧
      lt (sub (mul r.quad_c1 r.quad_c1) (mul four r.quad_c2)) zero = true ∧
      r.allowable_load = lit 9599999956229248 (-11) ∧
      div r.critical_load (lit 3 0) = lit 9599999912458497 (-11) ∧
      lt (div r.critical_load (lit 3 0)) r.allowable_load = true) ∧
    (∃ r : CrookedResultF64,
      r = handle_crooked_rectangular_f64 (lit 2 0) (lit 4 0) (lit 1 (-7)) (lit 3 0) (lit 1 0)
        (lit 36000 0) (lit 3 7) ∧
      r.critical_load = mul (lit 36000 0) r.area ∧
      r.critical_load = lit 288000 0 ∧
      lt r.critical_load (mul (lit 36000 0) r.area) = false) :=
  ⟨⟨by decide, by decide, by decide, by decide, by decide, by decide, by decide, by decide,
      by decide⟩,
    ⟨_, rfl, by decide⟩,
    ⟨_, rfl, by decide, by decide, by decide, by decide⟩,
    ⟨_, rfl, by decide, by decide, by decide⟩⟩

/-! ## The circular cases in double precision -/

/-- C10 (as amended): for every valid input to the circular crooked or eccentric case the
reported allowable load is `solve_quadratic_small_root(C1, C2)` for the coefficients the
handler computes in double precision, the eccentric handler reporting the same values.  At
`D=2, K=1, a=0.125, N=3, S=36000, E=3e7` with `L=100` (long regime) and with `L=50` (short
regime) the critical load is positive and the allowable load `P` satisfies
`0 < P < critical_load/N` and `P < S·area/N`. -/
theorem circular_f64_allowable (D K a N L S E e : F64)
    (_hD : valid_positive_f64 D = true) (_hK : valid_positive_f64 K = true)
    (_ha : valid_positive_f64 a = true) (_hN : valid_positive_f64 N = true)
    (_hL : valid_positive_f64 L = true) (_hS : valid_positive_f64 S = true)
    (_hE : valid_positive_f64 E = true) (_he : valid_positive_f64 e = true) :
    ((handle_crooked_circular_f64 D K a N L S E).allowable_load =
        solve_quadratic_small_root_f64 (handle_crooked_circular_f64 D K a N L S E).quad_c1
          (handle_crooked_circular_f64 D K a N L S E).quad_c2 ∧
      (handle_eccentric_circular_f64 D K a N L S E e).critical_load =
        (handle_crooked_circular_f64 D K a N L S E).critical_load ∧
      (handle_eccentric_circular_f64 D K a N L S E e).allowable_load =
        (handle_crooked_circular_f64 D K a N L S E).allowable_load) ∧
    (∃ r : CrookedResultF64,
      r = handle_crooked_circular_f64 (lit 2 0) (lit 1 0) (lit 125 (-3)) (lit 3 0) (lit 100 0)
        (lit 36000 0) (lit 3 7) ∧
      r.regime = Regime.long ∧
      lt zero r.critical_load = true ∧ lt zero r.allowable_load = true ∧
      lt r.allowable_load (div r.critical_load (lit 3 0)) = true ∧
      lt r.allowable_load (div (mul (lit 36000 0) r.area) (lit 3 0)) = true) ∧
    (∃ r : CrookedResultF64,
      r = handle_crooked_circular_f64 (lit 2 0) (lit 1 0) (lit 125 (-3)) (lit 3 0) (lit 50 0)
        (lit 36000 0) (lit 3 7) ∧
      r.regime = Regime.short ∧
      lt zero r.critical_load = true ∧ lt zero r.allowable_load = true ∧
      lt r.allowable_load (div r.critical_load (lit 3 0)) = true ∧
      lt r.allowable_load (div (mul (lit 36000 0) r.area) (lit 3 0)) = true) := by
  obtain ⟨-, -, -, -, h3⟩ := crooked_circular_f64_structure D K a N L S E
  obtain ⟨g1, -, -, -, g4⟩ := eccentric_circular_f64_loads D K a N L S E e
  exact ⟨⟨h3, g1, g4⟩,
    ⟨_, rfl, by decide, by decide, by decide, by decide, by decide⟩,
    ⟨_, rfl, by decide, by decide, by decide, by decide, by decide⟩⟩

/-- The statement of C10 at `D=2, K=1, a=0.125, N=3, L=100, S=36000, E=3e7, e=0.5`, all
valid: the eccentric handler reports the allowable load of the crooked handler. -/
theorem circular_f64_allowable_witness :
    (handle_eccentric_circular_f64 (lit 2 0) (lit 1 0) (lit 125 (-3)) (lit 3 0) (lit 100 0)
        (lit 36000 0) (lit 3 7) (lit 5 (-1))).allowable_load =
      (handle_crooked_circular_f64 (lit 2 0) (lit 1 0) (lit 125 (-3)) (lit 3 0) (lit 100 0)
        (lit 36000 0) (lit 3 7)).allowable_load :=
  (circular_f64_allowable (lit 2 0) (lit 1 0) (lit 125 (-3)) (lit 3 0) (lit 100 0)
    (lit 36000 0) (lit 3 7) (lit 5 (-1)) (by decide) (by decide) (by decide) (by decide)
    (by decide) (by decide) (by decide) (by decide)).1.2.2

/-- C10 (as stated) fails: with `a = 1e-17` (`D=2, K=1, N=3, L=100, S=36000, E=3e7`) the sum
`1.0 + a·(D/2)/radius_gyration²` rounds to `1.0` and the allowable load
`7751.569170074956` exceeds `critical_load/N = 7751.569170074955`; with `a = 1e8`
(`N=1, L=50`) the allowable load is `0.0`, not positive. -/
theorem circular_f64_allowable_not_below :
    (valid_positive_f64 (lit 1 (-17)) = true ∧
      add one (div (mul (lit 1 (-17)) (div (lit 2 0) two))
        (mul (div (lit 2 0) four) (div (lit 2 0) four))) = one ∧
      ∃ r : CrookedResultF64,
        r = handle_crooked_circular_f64 (lit 2 0) (lit 1 0) (lit 1 (-17)) (lit 3 0)
          (lit 100 0) (lit 36000 0) (lit 3 7) ∧
        r.allowable_load = lit 7751569170074956 (-12) ∧
        div r.critical_load (lit 3 0) = lit 7751569170074955 (-12) ∧
        lt (div r.critical_load (lit 3 0)) r.allowable_load = true) ∧
    (valid_positive_f64 (lit 1 8) = true ∧
      ∃ r : CrookedResultF64,
        r = handle_crooked_circular_f64 (lit 2 0) (lit 1 0) (lit 1 8) (lit 1 0) (lit 50 0)
          (lit 36000 0) (lit 3 7) ∧
        r.allowable_load = zero ∧ lt zero r.allowable_load = false) :=
  ⟨⟨by decide, by decide, _, rfl, by decide, by decide, by decide⟩,
    by decide, _, rfl, by decide, by decide⟩

end DoublePrecision

end ColumnSolver
